import Mathlib

/-!
# Verification of the serde-json-v8 serializer (`src/ser.rs`)

This file shallowly embeds the float-to-token decision rule of
`CompactV8Formatter` / `PrettyV8Formatter`, the structural forwarding of
`PrettyV8Formatter`, and the top-level entry points
(`to_writer`, `to_vec`, `to_string` and their pretty variants).

IEEE-754 binary64 (resp. binary32) values are embedded as sign / exponent
field / fraction field triples.  The exact value of a finite double `v` is
the rational `v.valNum / 2 ^ 1074` (resp. `/ 2 ^ 149` for binary32), where
`valNum` is an integer; all executable arithmetic is done on these scaled
integers so that every definition evaluates inside the kernel.
-/

set_option maxRecDepth 20000
set_option maxHeartbeats 3200000

namespace SerdeV8

/-! ## Basic numeric helpers -/

/-- `pw k = 2 ^ k` as an executable natural number (kernel-friendly `Nat.pow`). -/
def pw (k : Nat) : Nat := Nat.pow 2 k

/-- Fuel-driven binary bit length: `bitlenF f n` is the number of binary digits
of `n`, exact whenever `n < 2 ^ f`. -/
def bitlenF : Nat → Nat → Nat
  | 0, _ => 0
  | f + 1, n => if n = 0 then 0 else bitlenF f (n / 2) + 1

/-- Bit length of a natural number (exact below `2 ^ 4096`, which covers every
number appearing in the embedding). -/
def bitlen (n : Nat) : Nat := bitlenF 4096 n

/-- Round `a / 2 ^ sh` to the nearest integer, halves away from zero
(`a` is a magnitude, hence nonnegative).  Models Rust's `f64::round` /
`f32::round` on the scaled magnitude of a finite float. -/
def roundAwayNat (sh a : Nat) : Nat := (a + pw sh / 2) / pw sh

/-- Round the natural number `a` to `prec` significant binary digits, ties to
even.  This is exactly what casting an integer to a binary float of precision
`prec` does when no overflow is possible. -/
def natCastRound (prec a : Nat) : Nat :=
  let s := bitlen a - prec
  if s = 0 then a
  else
    let q := a / pw s
    let r := a % pw s
    let q' := if pw (s - 1) < r ∨ (r = pw (s - 1) ∧ q % 2 = 1) then q + 1 else q
    q' * pw s

/-- Decimal digit character for `d < 10`. -/
def digitChar (d : Nat) : Char := Char.ofNat (48 + d)

/-- Fuel-driven decimal digits of a natural number (most significant first). -/
def natDecimalF : Nat → Nat → List Char
  | 0, _ => []
  | f + 1, n => if n = 0 then [] else natDecimalF f (n / 10) ++ [digitChar (n % 10)]

/-- Decimal digits of a natural number; models what `itoa` emits for
nonnegative input (exact below `10 ^ 40`). -/
def natDecimal (n : Nat) : List Char := if n = 0 then [digitChar 0] else natDecimalF 40 n

/-- Decimal rendering of an `i64`; models what `itoa` (used by serde_json's
`write_i64`) emits: an optional minus sign followed by decimal digits. -/
def intDecimal (n : Int) : List Char :=
  if n < 0 then Char.ofNat 45 :: natDecimal n.natAbs else natDecimal n.natAbs

/-! ## IEEE-754 binary64 and binary32 -/

/-- An IEEE-754 binary64 bit pattern: sign, 11-bit exponent field, 52-bit
fraction field. -/
structure F64 where
  sign : Bool
  expF : Nat
  frac : Nat
deriving DecidableEq, Repr

/-- Well-formedness of an `F64` bit pattern. -/
def F64.Wf (v : F64) : Prop := v.expF < 2048 ∧ v.frac < pw 52

instance (v : F64) : Decidable v.Wf := by unfold F64.Wf; infer_instance

/-- Scaled magnitude of a binary64 pattern: for finite `v` the real magnitude
is `v.magNum / 2 ^ 1074` (subnormals have `expF = 0`, normals add the hidden
bit and scale by `2 ^ (expF - 1)`). -/
def F64.magNum (v : F64) : Nat :=
  if v.expF = 0 then v.frac else (pw 52 + v.frac) * pw (v.expF - 1)

/-- Scaled signed value of a binary64 pattern: the real value of a finite `v`
is `v.valNum / 2 ^ 1074`. -/
def F64.valNum (v : F64) : Int :=
  if v.sign then -(v.magNum : Int) else (v.magNum : Int)

/-- Exact rational value of a finite binary64 pattern. -/
def F64.val (v : F64) : ℚ := (v.valNum : ℚ) / 2 ^ 1074

/-- Rational value of a binary64 pattern when finite, `none` for NaN and
±infinity (exponent field all ones). -/
def F64.value? (v : F64) : Option ℚ := if v.expF = 2047 then none else some v.val

/-- The pattern is a NaN. -/
def F64.isNan (v : F64) : Bool := v.expF = 2047 && v.frac ≠ 0

/-- The pattern is ±infinity. -/
def F64.isInf (v : F64) : Bool := v.expF = 2047 && v.frac = 0

/-- IEEE equality `v == x` where `x` is the finite double of exact integer
value `n` (the result of an `i64` to `f64` cast).  NaN and ±infinity compare
unequal to every finite double; `-0.0` has `valNum = 0` and compares equal
to `0`. -/
def F64.eqInt (v : F64) (n : Int) : Bool :=
  if v.expF = 2047 then false else decide (v.valNum = n * (pw 1074 : Int))

/-- `i64::MAX`. -/
def i64Max : Int := 9223372036854775807

/-- `i64::MIN`. -/
def i64Min : Int := -9223372036854775808

/-- Models the Rust expression `value.round() as i64` for a binary64 `value`:
round half away from zero, then saturating cast (NaN casts to 0, ±infinity
and out-of-range values saturate to `i64::MIN` / `i64::MAX`). -/
def nearestIntF64 (v : F64) : Int :=
  if v.expF = 2047 then
    if v.frac ≠ 0 then 0 else if v.sign then i64Min else i64Max
  else
    let r : Nat := roundAwayNat 1074 v.magNum
    if v.sign then
      if pw 63 ≤ r then i64Min else -(r : Int)
    else
      if pw 63 ≤ r then i64Max else (r : Int)

/-- Exact integer value of the `f64` obtained by casting the `i64` value `n`
to `f64` (round to nearest, ties to even; no overflow is possible in the
`i64` range). -/
def i64ToF64 (n : Int) : Int :=
  if n < 0 then -(natCastRound 53 n.natAbs : Int) else (natCastRound 53 n.natAbs : Int)

/-- An IEEE-754 binary32 bit pattern: sign, 8-bit exponent field, 23-bit
fraction field. -/
structure F32 where
  sign : Bool
  expF : Nat
  frac : Nat
deriving DecidableEq, Repr

/-- Well-formedness of an `F32` bit pattern. -/
def F32.Wf (v : F32) : Prop := v.expF < 256 ∧ v.frac < pw 23

instance (v : F32) : Decidable v.Wf := by unfold F32.Wf; infer_instance

/-- Scaled magnitude of a binary32 pattern: the real magnitude of a finite `v`
is `v.magNum / 2 ^ 149`. -/
def F32.magNum (v : F32) : Nat :=
  if v.expF = 0 then v.frac else (pw 23 + v.frac) * pw (v.expF - 1)

/-- Scaled signed value of a binary32 pattern: the real value of a finite `v`
is `v.valNum / 2 ^ 149`. -/
def F32.valNum (v : F32) : Int :=
  if v.sign then -(v.magNum : Int) else (v.magNum : Int)

def F32.val (v : F32) : ℚ := (v.valNum : ℚ) / 2 ^ 149

/-- Rational value of a binary32 pattern when finite, `none` otherwise. -/
def F32.value? (v : F32) : Option ℚ := if v.expF = 255 then none else some v.val

/-- IEEE equality `v == x` where `x` is the finite binary32 of exact integer
value `n` (the result of an `i64` to `f32` cast). -/
def F32.eqInt (v : F32) (n : Int) : Bool :=
  if v.expF = 255 then false else decide (v.valNum = n * (pw 149 : Int))

/-- Models the Rust expression `value.round() as i64` for a binary32 `value`. -/
def nearestIntF32 (v : F32) : Int :=
  if v.expF = 255 then
    if v.frac ≠ 0 then 0 else if v.sign then i64Min else i64Max
  else
    let r : Nat := roundAwayNat 149 v.magNum
    if v.sign then
      if pw 63 ≤ r then i64Min else -(r : Int)
    else
      if pw 63 ≤ r then i64Max else (r : Int)

/-- Exact integer value of the `f32` obtained by casting the `i64` value `n`
to `f32` (round to nearest, ties to even; `f32::MAX > 2 ^ 63`, so no overflow
is possible in the `i64` range). -/
def i64ToF32 (n : Int) : Int :=
  if n < 0 then -(natCastRound 24 n.natAbs : Int) else (natCastRound 24 n.natAbs : Int)

/-- Models the Rust `f32` to `f64` cast `value.into()`: the exact (lossless)
promotion of a binary32 bit pattern to a binary64 bit pattern.  NaN payloads
and infinities map to the corresponding binary64 patterns. -/
def promoteF32 (v : F32) : F64 :=
  if v.expF = 255 then ⟨v.sign, 2047, v.frac * pw 29⟩
  else if v.expF = 0 then
    if v.frac = 0 then ⟨v.sign, 0, 0⟩
    else
      let b := bitlen v.frac
      ⟨v.sign, b + 873, v.frac * pw (53 - b) - pw 52⟩
  else ⟨v.sign, v.expF + 896, v.frac * pw 29⟩

/-! ## Number tokens

The spec's "float-to-token decision rule" is the pure function below
(spec §4.1, §9): given the float value, decide whether the base formatter's
integer-rendering callback (`write_i64`) or float-rendering callback
(`write_f64` of `CompactFormatter` / `PrettyFormatter`) is invoked, and with
which argument. -/

/-- A JSON output token.  `Tok.int n` is an invocation of the delegated
`write_i64` with argument `n`; `Tok.float v` is an invocation of the delegated
base `write_f64` with argument `v` (which renders a float literal that parses
back to `v`). -/
inductive Tok where
  | null : Tok
  | bool : Bool → Tok
  | int : Int → Tok
  | float : F64 → Tok
  | str : List Char → Tok
  | lbrace : Tok
  | rbrace : Tok
  | lbrack : Tok
  | rbrack : Tok
  | comma : Tok
  | colon : Tok
deriving DecidableEq, Repr

/-- `CompactV8Formatter::write_f64` (src/ser.rs lines 64-75), at the level of
the emitted number token:
`let nearest_int = value.round() as i64;`
`if value == (nearest_int as f64) { ...write_i64(writer, nearest_int) }`
`else { ...write_f64(writer, value) }`. -/
def CompactV8Formatter.writeF64Tok (value : F64) : Tok :=
  let nearest_int : Int := nearestIntF64 value
  if value.eqInt (i64ToF64 nearest_int) then Tok.int nearest_int else Tok.float value

/-- `CompactV8Formatter::write_f32` (src/ser.rs lines 51-62), at the level of
the emitted number token; the else branch writes `value.into()` (the `f64`
promotion) through the base `write_f64`. -/
def CompactV8Formatter.writeF32Tok (value : F32) : Tok :=
  let nearest_int : Int := nearestIntF32 value
  if value.eqInt (i64ToF32 nearest_int) then Tok.int nearest_int
  else Tok.float (promoteF32 value)

/-- `PrettyV8Formatter::write_f64` (src/ser.rs lines 121-132), at the level of
the emitted number token (same decision rule, delegated to the inner
`PrettyFormatter`). -/
def PrettyV8Formatter.writeF64Tok (value : F64) : Tok :=
  let nearest_int : Int := nearestIntF64 value
  if value.eqInt (i64ToF64 nearest_int) then Tok.int nearest_int else Tok.float value

/-- `PrettyV8Formatter::write_f32` (src/ser.rs lines 108-119), at the level of
the emitted number token. -/
def PrettyV8Formatter.writeF32Tok (value : F32) : Tok :=
  let nearest_int : Int := nearestIntF32 value
  if value.eqInt (i64ToF32 nearest_int) then Tok.int nearest_int
  else Tok.float (promoteF32 value)

/-! Sample bit patterns used throughout. -/

/-- The binary64 value `3.0`. -/
def f64Three : F64 := ⟨false, 1024, pw 51⟩
/-- The binary64 value `1.5`. -/
def f64OnePointFive : F64 := ⟨false, 1023, pw 51⟩
/-- The binary64 value `-0.0`. -/
def f64NegZero : F64 := ⟨true, 0, 0⟩
/-- The binary64 value `2 ^ 63 = 9223372036854775808.0`. -/
def f64TwoPow63 : F64 := ⟨false, 1086, 0⟩
/-- A binary64 NaN. -/
def f64NaN : F64 := ⟨false, 2047, 1⟩
/-- Binary64 positive infinity. -/
def f64Inf : F64 := ⟨false, 2047, 0⟩
/-- The binary32 value `3.0`. -/
def f32Three : F32 := ⟨false, 128, pw 22⟩
/-- The binary32 value `0.5`. -/
def f32Half : F32 := ⟨false, 126, 0⟩

/-! ## The base formatter's float rendering

`CompactFormatter::write_f64` / `PrettyFormatter::write_f64` of serde_json
(rendered through ryu) are external collaborators (spec §1, §6): the spec only
fixes their contract.  The definitions below follow that contract. -/

/-- `pow10 k = 10 ^ k` as an executable natural number. -/
def pow10 (k : Nat) : Nat := Nat.pow 10 k

/-- Round `x / y` (with `y > 0`) to the nearest integer, ties to even. -/
def roundHalfEvenFrac (x y : Nat) : Nat :=
  let q := x / y
  let r := x % y
  if y < 2 * r ∨ (y = 2 * r ∧ q % 2 = 1) then q + 1 else q

/-- Modelled from the spec: round the nonnegative rational `x / y` to the
IEEE-754 binary64 grid (round to nearest, ties to even, gradual underflow),
returning the scaled magnitude (`2 ^ 1074` times the value of the resulting
double); overflow to infinity is capped at `2 ^ 2098`.  This is the parsing
direction of the "round-trip fidelity" contract the spec states for the
external base float formatter (spec §4.1, §9). -/
def f64NearestScaled (x y : Nat) : Nat :=
  if x = 0 then 0
  else
    let q0 := x * pw 1074 / y
    let b := bitlen q0
    let out :=
      if b ≤ 53 then roundHalfEvenFrac (x * pw 1074) y
      else (roundHalfEvenFrac (x * pw 1074) (y * pw (b - 53))) * pw (b - 53)
    if pw 2098 ≤ out then pw 2098 else out

/-- Largest `k` with `10 ^ k * 2 ^ 1074 ≤ a`, by fueled search. -/
def fl10up (a : Nat) : Nat → Nat → Nat
  | 0, k => k
  | f + 1, k => if pow10 (k + 1) * pw 1074 ≤ a then fl10up a f (k + 1) else k

/-- Smallest `j` with `2 ^ 1074 ≤ a * 10 ^ j`, by fueled search. -/
def fl10down (a : Nat) : Nat → Nat → Nat
  | 0, j => j
  | f + 1, j => if pw 1074 ≤ a * pow10 j then j else fl10down a f (j + 1)

/-- `⌊log10 (a / 2 ^ 1074)⌋` for `a ≥ 1`. -/
def floorLog10Scaled (a : Nat) : Int :=
  if pw 1074 ≤ a then (fl10up a 400 0 : Int) else -(fl10down a 400 1 : Int)

/-- The decimal digits value at precision `p` for the scaled magnitude `a`:
the integer `n` nearest to `(a / 2 ^ 1074) / 10 ^ k` where `k = e10 - p + 1`,
together with `k`. -/
def digitsAt (a : Nat) (e10 : Int) (p : Nat) : Nat × Int :=
  let k : Int := e10 - (p : Int) + 1
  if 0 ≤ k then (roundHalfEvenFrac a (pw 1074 * pow10 k.toNat), k)
  else (roundHalfEvenFrac (a * pow10 (-k).toNat) (pw 1074), k)

/-- Does the decimal `n * 10 ^ k` parse back (under IEEE-754 binary64
nearest rounding) to the double of scaled magnitude `a`? -/
def roundTripsTo (a : Nat) (nk : Nat × Int) : Bool :=
  let n := nk.1
  let k := nk.2
  if 0 ≤ k then f64NearestScaled (n * pow10 k.toNat) 1 = a
  else f64NearestScaled n (pow10 (-k).toNat) = a

/-- Modelled from the spec: the shortest decimal-digit representation of the
double with scaled magnitude `a` that round-trips back to it (spec §9:
"the shortest round-trip representation"); searches precisions 1..17 and
falls back to 17 significant digits. -/
def shortestDigits (a : Nat) (e10 : Int) : Nat → Nat → Nat × Int
  | 0, p => digitsAt a e10 p
  | f + 1, p =>
    if roundTripsTo a (digitsAt a e10 p) then digitsAt a e10 p
    else shortestDigits a e10 f (p + 1)

/-- `u` repeated `n` times (used for indentation and zero padding). -/
def repeatList (n : Nat) (u : List Char) : List Char :=
  match n with
  | 0 => []
  | m + 1 => u ++ repeatList m u

/-- Modelled from the spec: fixed/scientific notation selection of the
external float renderer (ryu's `format_finite`, used by serde_json): plain
decimal notation for magnitudes in `[1e-5, 1e16)`, scientific notation
otherwise; an integral rendering keeps a trailing `.0`. -/
def formatDigits (n : Nat) (bigE : Int) : List Char :=
  let D := natDecimal n
  let L := D.length
  if 0 ≤ bigE ∧ bigE < 16 then
    let ip := bigE.toNat + 1
    if L ≤ ip then D ++ repeatList (ip - L) [digitChar 0] ++ ['.', digitChar 0]
    else D.take ip ++ ['.'] ++ D.drop ip
  else if -5 ≤ bigE ∧ bigE < 0 then
    [digitChar 0, '.'] ++ repeatList (-bigE - 1).toNat [digitChar 0] ++ D
  else
    D.take 1 ++ (if L ≤ 1 then [] else ['.'] ++ D.drop 1) ++ ['e'] ++ intDecimal bigE

/-- Modelled from the spec: the float-rendering callback of the delegated
base formatter (serde_json's `CompactFormatter::write_f64` /
`PrettyFormatter::write_f64`, rendered through ryu; external per spec §1):
for a finite double, the shortest decimal literal that round-trips back to
the same double (spec §4.1 "round-trip fidelity", §9 "shortest round-trip
representation").  Non-finite patterns never reach it through the driving
encoder (spec §4.1); for totality they render as ryu's non-finite texts. -/
def baseRenderF64 (v : F64) : List Char :=
  if v.expF = 2047 then
    if v.frac ≠ 0 then ['N', 'a', 'N']
    else if v.sign then ['-', 'i', 'n', 'f'] else ['i', 'n', 'f']
  else if v.magNum = 0 then
    (if v.sign then ['-'] else []) ++ [digitChar 0, '.', digitChar 0]
  else
    let a := v.magNum
    let e10 := floorLog10Scaled a
    let nk := shortestDigits a e10 16 1
    let L := (natDecimal nk.1).length
    let bigE : Int := (L : Int) - 1 + nk.2
    (if v.sign then ['-'] else []) ++ formatDigits nk.1 bigE

/-! ## UTF-8 -/

/-- UTF-8 encoding of a single Unicode scalar value. -/
def utf8EncodeChar (c : Char) : List Nat :=
  let n := c.toNat
  if n < 128 then [n]
  else if n < 2048 then [192 + n / 64, 128 + n % 64]
  else if n < 65536 then [224 + n / 4096, 128 + n / 64 % 64, 128 + n % 64]
  else [240 + n / 262144, 128 + n / 4096 % 64, 128 + n / 64 % 64, 128 + n % 64]

/-- UTF-8 encoding of a character sequence (the bytes a Rust `&str` holds). -/
def utf8Encode : List Char → List Nat
  | [] => []
  | c :: cs => utf8EncodeChar c ++ utf8Encode cs

/-- Models `String::from_utf8_unchecked`: reassemble characters from bytes
assuming well-formed UTF-8, performing no validation (on malformed input it
returns garbage rather than failing, exactly like the unchecked Rust cast).
The byte count to consume is read off the leading byte alone; continuation
bytes are never checked. -/
def utf8DecodeUnchecked : List Nat → List Char
  | [] => []
  | b :: bs =>
    if b < 128 then Char.ofNat b :: utf8DecodeUnchecked bs
    else if b < 224 then
      Char.ofNat ((b - 192) * 64 + (bs.headD 0 - 128)) :: utf8DecodeUnchecked (bs.drop 1)
    else if b < 240 then
      Char.ofNat ((b - 224) * 4096 + (bs.headD 0 - 128) * 64 +
          ((bs.drop 1).headD 0 - 128)) :: utf8DecodeUnchecked (bs.drop 2)
    else
      Char.ofNat ((b - 240) * 262144 + (bs.headD 0 - 128) * 4096 +
          ((bs.drop 1).headD 0 - 128) * 64 + ((bs.drop 2).headD 0 - 128)) ::
        utf8DecodeUnchecked (bs.drop 3)
termination_by l => l.length
decreasing_by all_goals (simp [List.length_drop]; try omega)

/-! ## Writers and formatters

A destination byte sink (`W: io::Write`): a state together with a possibly
failing write of a byte chunk (spec §5: the sink is external and may fail). -/

structure WriterM (ε σ : Type) where
  write : σ → List Nat → Except ε σ

section Writers

variable {ε σ : Type}

/-- The external serde_json `CompactFormatter`'s (and the `Formatter` trait's
default) `write_i64`: write the itoa decimal rendering of the integer. -/
def CompactFormatter.write_i64 (w : WriterM ε σ) (s : σ) (value : Int) : Except ε σ :=
  w.write s (utf8Encode (intDecimal value))

/-- The external serde_json `CompactFormatter`'s `write_f64`: write the ryu
rendering of the double. -/
def CompactFormatter.write_f64 (w : WriterM ε σ) (s : σ) (value : F64) : Except ε σ :=
  w.write s (utf8Encode (baseRenderF64 value))

/-- `CompactV8Formatter::write_f64` (src/ser.rs lines 64-75) at the
byte/writer level: the decision rule, delegating the actual write to
`CompactFormatter`'s `write_i64` or `write_f64`. -/
def CompactV8Formatter.write_f64 (w : WriterM ε σ) (s : σ) (value : F64) : Except ε σ :=
  let nearest_int : Int := nearestIntF64 value
  if value.eqInt (i64ToF64 nearest_int) then CompactFormatter.write_i64 w s nearest_int
  else CompactFormatter.write_f64 w s value

/-- `CompactV8Formatter::write_f32` (src/ser.rs lines 51-62) at the
byte/writer level; the else branch writes `value.into()`. -/
def CompactV8Formatter.write_f32 (w : WriterM ε σ) (s : σ) (value : F32) : Except ε σ :=
  let nearest_int : Int := nearestIntF32 value
  if value.eqInt (i64ToF32 nearest_int) then CompactFormatter.write_i64 w s nearest_int
  else CompactFormatter.write_f64 w s (promoteF32 value)

end Writers

/-- Modelled from the spec: the external serde_json `PrettyFormatter`'s state
(spec §3 "IndentState": current nesting depth, the first-element flag, and
the indent unit). -/
structure PrettyFormatter where
  current_indent : Nat
  has_value : Bool
  indent : List Char
deriving DecidableEq, Repr

/-- `PrettyFormatter::new()`: two-space indent. -/
def PrettyFormatter.new : PrettyFormatter := ⟨0, false, [' ', ' ']⟩

/-- `PrettyFormatter::with_indent`. -/
def PrettyFormatter.with_indent (indent : List Char) : PrettyFormatter := ⟨0, false, indent⟩

/-- The indentation run written at nesting depth `n`. -/
def indentRun (n : Nat) (u : List Char) : List Char := repeatList n u

/-- Modelled from the spec: `PrettyFormatter::begin_array` — push one indent
level, clear the first-element flag, emit `[` (spec §3, §4.3). -/
def PrettyFormatter.begin_array (f : PrettyFormatter) : PrettyFormatter × List Char :=
  (⟨f.current_indent + 1, false, f.indent⟩, ['['])

/-- Modelled from the spec: `PrettyFormatter::end_array` — pop one indent
level, emit a newline plus indentation when the array had a value, emit `]`. -/
def PrettyFormatter.end_array (f : PrettyFormatter) : PrettyFormatter × List Char :=
  (⟨f.current_indent - 1, f.has_value, f.indent⟩,
    (if f.has_value then '\n' :: indentRun (f.current_indent - 1) f.indent else []) ++ [']'])

/-- Modelled from the spec: `PrettyFormatter::begin_array_value` — emit the
separator (`,` unless first), a newline and the indentation. -/
def PrettyFormatter.begin_array_value (f : PrettyFormatter) (first : Bool) :
    PrettyFormatter × List Char :=
  (f, (if first then ['\n'] else [',', '\n']) ++ indentRun f.current_indent f.indent)

/-- Modelled from the spec: `PrettyFormatter::end_array_value` — record that
the enclosing container has a value. -/
def PrettyFormatter.end_array_value (f : PrettyFormatter) : PrettyFormatter × List Char :=
  (⟨f.current_indent, true, f.indent⟩, [])

/-- Modelled from the spec: `PrettyFormatter::begin_object`. -/
def PrettyFormatter.begin_object (f : PrettyFormatter) : PrettyFormatter × List Char :=
  (⟨f.current_indent + 1, false, f.indent⟩, [Char.ofNat 123])

/-- Modelled from the spec: `PrettyFormatter::end_object`. -/
def PrettyFormatter.end_object (f : PrettyFormatter) : PrettyFormatter × List Char :=
  (⟨f.current_indent - 1, f.has_value, f.indent⟩,
    (if f.has_value then '\n' :: indentRun (f.current_indent - 1) f.indent else []) ++
      [Char.ofNat 125])

/-- Modelled from the spec: `PrettyFormatter::begin_object_key`. -/
def PrettyFormatter.begin_object_key (f : PrettyFormatter) (first : Bool) :
    PrettyFormatter × List Char :=
  (f, (if first then ['\n'] else [',', '\n']) ++ indentRun f.current_indent f.indent)

/-- The `Formatter` trait's default `end_object_key`: a no-op (neither
`PrettyFormatter` nor `PrettyV8Formatter` overrides it). -/
def PrettyFormatter.end_object_key (f : PrettyFormatter) : PrettyFormatter × List Char :=
  (f, [])

/-- Modelled from the spec: `PrettyFormatter::begin_object_value` — emit
`: `. -/
def PrettyFormatter.begin_object_value (f : PrettyFormatter) : PrettyFormatter × List Char :=
  (f, [':', ' '])

/-- Modelled from the spec: `PrettyFormatter::end_object_value`. -/
def PrettyFormatter.end_object_value (f : PrettyFormatter) : PrettyFormatter × List Char :=
  (⟨f.current_indent, true, f.indent⟩, [])

/-- `PrettyV8Formatter` (src/ser.rs lines 81-83): owns an inner
`PrettyFormatter`. -/
structure PrettyV8Formatter where
  inner : PrettyFormatter
deriving DecidableEq, Repr

/-- `PrettyV8Formatter::new()` (src/ser.rs lines 87-91). -/
def PrettyV8Formatter.new : PrettyV8Formatter := ⟨PrettyFormatter.new⟩

/-- `PrettyV8Formatter::with_indent` (src/ser.rs lines 94-98). -/
def PrettyV8Formatter.with_indent (indent : List Char) : PrettyV8Formatter :=
  ⟨PrettyFormatter.with_indent indent⟩

/-- `PrettyV8Formatter::begin_array` (src/ser.rs lines 135-140): forwarded to
the inner formatter. -/
def PrettyV8Formatter.begin_array (f : PrettyV8Formatter) : PrettyV8Formatter × List Char :=
  (⟨(f.inner.begin_array).1⟩, (f.inner.begin_array).2)

/-- `PrettyV8Formatter::end_array` (src/ser.rs lines 143-148). -/
def PrettyV8Formatter.end_array (f : PrettyV8Formatter) : PrettyV8Formatter × List Char :=
  (⟨(f.inner.end_array).1⟩, (f.inner.end_array).2)

/-- `PrettyV8Formatter::begin_array_value` (src/ser.rs lines 151-156). -/
def PrettyV8Formatter.begin_array_value (f : PrettyV8Formatter) (first : Bool) :
    PrettyV8Formatter × List Char :=
  (⟨(f.inner.begin_array_value first).1⟩, (f.inner.begin_array_value first).2)

/-- `PrettyV8Formatter::end_array_value` (src/ser.rs lines 159-164). -/
def PrettyV8Formatter.end_array_value (f : PrettyV8Formatter) :
    PrettyV8Formatter × List Char :=
  (⟨(f.inner.end_array_value).1⟩, (f.inner.end_array_value).2)

/-- `PrettyV8Formatter::begin_object` (src/ser.rs lines 167-172). -/
def PrettyV8Formatter.begin_object (f : PrettyV8Formatter) : PrettyV8Formatter × List Char :=
  (⟨(f.inner.begin_object).1⟩, (f.inner.begin_object).2)

/-- `PrettyV8Formatter::end_object` (src/ser.rs lines 175-180). -/
def PrettyV8Formatter.end_object (f : PrettyV8Formatter) : PrettyV8Formatter × List Char :=
  (⟨(f.inner.end_object).1⟩, (f.inner.end_object).2)

/-- `PrettyV8Formatter::begin_object_key` (src/ser.rs lines 183-188). -/
def PrettyV8Formatter.begin_object_key (f : PrettyV8Formatter) (first : Bool) :
    PrettyV8Formatter × List Char :=
  (⟨(f.inner.begin_object_key first).1⟩, (f.inner.begin_object_key first).2)

/-- `PrettyV8Formatter`'s `end_object_key`: not overridden in src/ser.rs, so
it is the trait default no-op (identical to the inner formatter's). -/
def PrettyV8Formatter.end_object_key (f : PrettyV8Formatter) :
    PrettyV8Formatter × List Char :=
  (⟨(f.inner.end_object_key).1⟩, (f.inner.end_object_key).2)

/-- `PrettyV8Formatter::begin_object_value` (src/ser.rs lines 191-196). -/
def PrettyV8Formatter.begin_object_value (f : PrettyV8Formatter) :
    PrettyV8Formatter × List Char :=
  (⟨(f.inner.begin_object_value).1⟩, (f.inner.begin_object_value).2)

/-- `PrettyV8Formatter::end_object_value` (src/ser.rs lines 199-204). -/
def PrettyV8Formatter.end_object_value (f : PrettyV8Formatter) :
    PrettyV8Formatter × List Char :=
  (⟨(f.inner.end_object_value).1⟩, (f.inner.end_object_value).2)

section WritersPretty

variable {ε σ : Type}

/-- The `Formatter` trait's default `write_i64` as invoked through the inner
`PrettyFormatter` (`self.inner.write_i64`): identical byte-level behavior to
`CompactFormatter.write_i64`; it does not touch the indentation state. -/
def PrettyFormatter.write_i64 (w : WriterM ε σ) (s : σ) (value : Int) : Except ε σ :=
  w.write s (utf8Encode (intDecimal value))

/-- The external serde_json float rendering as invoked through the inner
`PrettyFormatter` (`self.inner.write_f64`). -/
def PrettyFormatter.write_f64 (w : WriterM ε σ) (s : σ) (value : F64) : Except ε σ :=
  w.write s (utf8Encode (baseRenderF64 value))

/-- `PrettyV8Formatter::write_f64` (src/ser.rs lines 121-132) at the
byte/writer level. -/
def PrettyV8Formatter.write_f64 (w : WriterM ε σ) (s : σ) (value : F64) : Except ε σ :=
  let nearest_int : Int := nearestIntF64 value
  if value.eqInt (i64ToF64 nearest_int) then PrettyFormatter.write_i64 w s nearest_int
  else PrettyFormatter.write_f64 w s value

/-- `PrettyV8Formatter::write_f32` (src/ser.rs lines 108-119) at the
byte/writer level. -/
def PrettyV8Formatter.write_f32 (w : WriterM ε σ) (s : σ) (value : F32) : Except ε σ :=
  let nearest_int : Int := nearestIntF32 value
  if value.eqInt (i64ToF32 nearest_int) then PrettyFormatter.write_i64 w s nearest_int
  else PrettyFormatter.write_f64 w s (promoteF32 value)

end WritersPretty

/-! ## The driving encoder

serde_json's `Serializer<W, F>` walking a JSON value tree is external
(spec §1, §6: "the general-purpose encoding engine that walks a data
structure and invokes formatting callbacks").  What follows models it from
the spec for string-keyed JSON trees. -/

mutual
/-- A JSON value tree (the serializable values the entry points receive). -/
inductive JValue where
  | null : JValue
  | bool : Bool → JValue
  | int : Int → JValue
  | float : F64 → JValue
  | str : List Char → JValue
  | arr : JArr → JValue
  | obj : JObj → JValue

/-- A list of JSON values (array elements). -/
inductive JArr where
  | nil : JArr
  | cons : JValue → JArr → JArr

/-- A list of string-keyed JSON entries (object members, in emission order). -/
inductive JObj where
  | nil : JObj
  | cons : List Char → JValue → JObj → JObj
end

/-- The callback set of the `Formatter` capability (spec §3), with formatter
state `φ`, as driven by an encoder writing through a sink with state `σ`. -/
structure Fmt (ε σ φ : Type) where
  write_null : φ → σ → Except ε (φ × σ)
  write_bool : φ → σ → Bool → Except ε (φ × σ)
  write_i64 : φ → σ → Int → Except ε (φ × σ)
  write_f64 : φ → σ → F64 → Except ε (φ × σ)
  write_str : φ → σ → List Char → Except ε (φ × σ)
  begin_array : φ → σ → Except ε (φ × σ)
  end_array : φ → σ → Except ε (φ × σ)
  begin_array_value : φ → σ → Bool → Except ε (φ × σ)
  end_array_value : φ → σ → Except ε (φ × σ)
  begin_object : φ → σ → Except ε (φ × σ)
  end_object : φ → σ → Except ε (φ × σ)
  begin_object_key : φ → σ → Bool → Except ε (φ × σ)
  end_object_key : φ → σ → Except ε (φ × σ)
  begin_object_value : φ → σ → Except ε (φ × σ)
  end_object_value : φ → σ → Except ε (φ × σ)

section Encoder

variable {ε σ φ : Type}

mutual
/-- Modelled from the spec: the external encoder walking a JSON value and
invoking the formatter callbacks in order (spec §6; §4.1 for the non-finite
guard: "the driving encoder rejects non-finite values before reaching this
callback" — serde_json writes `null` for them). -/
def serGen (F : Fmt ε σ φ) : JValue → φ × σ → Except ε (φ × σ)
  | .null, a => F.write_null a.1 a.2
  | .bool b, a => F.write_bool a.1 a.2 b
  | .int n, a => F.write_i64 a.1 a.2 n
  | .float v, a => if v.expF = 2047 then F.write_null a.1 a.2 else F.write_f64 a.1 a.2 v
  | .str cs, a => F.write_str a.1 a.2 cs
  | .arr xs, a => do
      let a1 ← F.begin_array a.1 a.2
      let a2 ← serArrGen F xs true a1
      F.end_array a2.1 a2.2
  | .obj kvs, a => do
      let a1 ← F.begin_object a.1 a.2
      let a2 ← serObjGen F kvs true a1
      F.end_object a2.1 a2.2

/-- Modelled from the spec: the encoder's array-element loop. -/
def serArrGen (F : Fmt ε σ φ) : JArr → Bool → φ × σ → Except ε (φ × σ)
  | .nil, _, a => pure a
  | .cons v tl, first, a => do
      let a1 ← F.begin_array_value a.1 a.2 first
      let a2 ← serGen F v a1
      let a3 ← F.end_array_value a2.1 a2.2
      serArrGen F tl false a3

/-- Modelled from the spec: the encoder's object-member loop. -/
def serObjGen (F : Fmt ε σ φ) : JObj → Bool → φ × σ → Except ε (φ × σ)
  | .nil, _, a => pure a
  | .cons k v tl, first, a => do
      let a1 ← F.begin_object_key a.1 a.2 first
      let a2 ← F.write_str a1.1 a1.2 k
      let a3 ← F.end_object_key a2.1 a2.2
      let a4 ← F.begin_object_value a3.1 a3.2
      let a5 ← serGen F v a4
      let a6 ← F.end_object_value a5.1 a5.2
      serObjGen F tl false a6
end

/-- The characters `null`. -/
def nullChars : List Char := ['n', 'u', 'l', 'l']

/-- The characters `true` / `false`. -/
def boolChars (b : Bool) : List Char :=
  if b then ['t', 'r', 'u', 'e'] else ['f', 'a', 'l', 's', 'e']

/-- A JSON string literal: quote, contents, quote (string escaping is out of
scope per spec §1; keys and contents here are already JSON-clean). -/
def strChars (cs : List Char) : List Char := '"' :: cs ++ ['"']

/-- The `CompactV8Formatter` instantiated as a callback set over a writer:
the two numeric callbacks use the decision rule of src/ser.rs, everything
else is the external `CompactFormatter` default (spec §4.2). -/
def CompactV8Fmt (w : WriterM ε σ) : Fmt ε σ Unit where
  write_null _ s := (w.write s (utf8Encode nullChars)).map (fun x => ((), x))
  write_bool _ s b := (w.write s (utf8Encode (boolChars b))).map (fun x => ((), x))
  write_i64 _ s n := (CompactFormatter.write_i64 w s n).map (fun x => ((), x))
  write_f64 _ s v := (CompactV8Formatter.write_f64 w s v).map (fun x => ((), x))
  write_str _ s cs := (w.write s (utf8Encode (strChars cs))).map (fun x => ((), x))
  begin_array _ s := (w.write s (utf8Encode ['['])).map (fun x => ((), x))
  end_array _ s := (w.write s (utf8Encode [']'])).map (fun x => ((), x))
  begin_array_value _ s first :=
    (w.write s (utf8Encode (if first then [] else [',']))).map (fun x => ((), x))
  end_array_value _ s := (w.write s []).map (fun x => ((), x))
  begin_object _ s := (w.write s (utf8Encode [Char.ofNat 123])).map (fun x => ((), x))
  end_object _ s := (w.write s (utf8Encode [Char.ofNat 125])).map (fun x => ((), x))
  begin_object_key _ s first :=
    (w.write s (utf8Encode (if first then [] else [',']))).map (fun x => ((), x))
  end_object_key _ s := (w.write s []).map (fun x => ((), x))
  begin_object_value _ s := (w.write s (utf8Encode [':'])).map (fun x => ((), x))
  end_object_value _ s := (w.write s []).map (fun x => ((), x))

/-- The `PrettyV8Formatter` instantiated as a callback set over a writer:
numeric callbacks use the decision rule, structural callbacks are the
forwarding methods of src/ser.rs lines 135-204. -/
def PrettyV8Fmt (w : WriterM ε σ) : Fmt ε σ PrettyV8Formatter where
  write_null f s := (w.write s (utf8Encode nullChars)).map (fun x => (f, x))
  write_bool f s b := (w.write s (utf8Encode (boolChars b))).map (fun x => (f, x))
  write_i64 f s n := (PrettyFormatter.write_i64 w s n).map (fun x => (f, x))
  write_f64 f s v := (PrettyV8Formatter.write_f64 w s v).map (fun x => (f, x))
  write_str f s cs := (w.write s (utf8Encode (strChars cs))).map (fun x => (f, x))
  begin_array f s :=
    (w.write s (utf8Encode (f.begin_array).2)).map (fun x => ((f.begin_array).1, x))
  end_array f s :=
    (w.write s (utf8Encode (f.end_array).2)).map (fun x => ((f.end_array).1, x))
  begin_array_value f s first :=
    (w.write s (utf8Encode (f.begin_array_value first).2)).map
      (fun x => ((f.begin_array_value first).1, x))
  end_array_value f s :=
    (w.write s (utf8Encode (f.end_array_value).2)).map (fun x => ((f.end_array_value).1, x))
  begin_object f s :=
    (w.write s (utf8Encode (f.begin_object).2)).map (fun x => ((f.begin_object).1, x))
  end_object f s :=
    (w.write s (utf8Encode (f.end_object).2)).map (fun x => ((f.end_object).1, x))
  begin_object_key f s first :=
    (w.write s (utf8Encode (f.begin_object_key first).2)).map
      (fun x => ((f.begin_object_key first).1, x))
  end_object_key f s :=
    (w.write s (utf8Encode (f.end_object_key).2)).map (fun x => ((f.end_object_key).1, x))
  begin_object_value f s :=
    (w.write s (utf8Encode (f.begin_object_value).2)).map
      (fun x => ((f.begin_object_value).1, x))
  end_object_value f s :=
    (w.write s (utf8Encode (f.end_object_value).2)).map
      (fun x => ((f.end_object_value).1, x))

/-- `to_writer` (src/ser.rs lines 214-222): serialize the value as compact
JSON into the sink. -/
def to_writer (w : WriterM ε σ) (s : σ) (value : JValue) : Except ε σ :=
  (serGen (CompactV8Fmt w) value ((), s)).map (fun a => a.2)

/-- `to_writer_pretty` (src/ser.rs lines 232-240). -/
def to_writer_pretty (w : WriterM ε σ) (s : σ) (value : JValue) : Except ε σ :=
  (serGen (PrettyV8Fmt w) value (PrettyV8Formatter.new, s)).map (fun a => a.2)

end Encoder

/-- The infallible `Vec<u8>` sink used by `to_vec` (src/ser.rs line 253). -/
def vecWriter : WriterM Empty (List Nat) := ⟨fun s bs => .ok (s ++ bs)⟩

/-- `to_vec` (src/ser.rs lines 249-256). -/
def to_vec (value : JValue) : Except Empty (List Nat) := to_writer vecWriter [] value

/-- `to_vec_pretty` (src/ser.rs lines 265-272). -/
def to_vec_pretty (value : JValue) : Except Empty (List Nat) :=
  to_writer_pretty vecWriter [] value

/-- `to_string` (src/ser.rs lines 281-291): the bytes of `to_vec`
reinterpreted as a string by `String::from_utf8_unchecked` — zero
validation. -/
def to_string (value : JValue) : Except Empty (List Char) :=
  (to_vec value).map utf8DecodeUnchecked

/-- `to_string_pretty` (src/ser.rs lines 300-310). -/
def to_string_pretty (value : JValue) : Except Empty (List Char) :=
  (to_vec_pretty value).map utf8DecodeUnchecked

/-! ## Token-level compact serialization and parsing

The spec asks for the float-to-token rule as "a pure function taking
(value, width) and returning a rendering instruction" (spec §9); the
token-level serializer below is the compact pipeline at that granularity,
used for the idempotence property. -/

mutual
/-- The compact serialization of a value as a token sequence: the sequence of
formatter callbacks the encoder performs, with the number tokens produced by
`CompactV8Formatter`'s decision rule. -/
def serVTok : JValue → List Tok
  | .null => [.null]
  | .bool b => [.bool b]
  | .int n => [.int n]
  | .float v => if v.expF = 2047 then [.null] else [CompactV8Formatter.writeF64Tok v]
  | .str s => [.str s]
  | .arr xs => .lbrack :: (serArrTok xs true ++ [.rbrack])
  | .obj kvs => .lbrace :: (serObjTok kvs true ++ [.rbrace])

/-- Array-element token loop (comma before every non-first element). -/
def serArrTok : JArr → Bool → List Tok
  | .nil, _ => []
  | .cons v tl, first => (if first then [] else [.comma]) ++ serVTok v ++ serArrTok tl false

/-- Object-member token loop. -/
def serObjTok : JObj → Bool → List Tok
  | .nil, _ => []
  | .cons k v tl, first =>
      (if first then [] else [.comma]) ++ (.str k :: .colon :: serVTok v) ++ serObjTok tl false
end

mutual
/-- Modelled from the spec: the external JSON parser at the token level
(this repository contains no deserializer — spec §1 "parsing/deserialization
is not addressed"; the idempotence property of spec §8 needs one).  Fueled
recursive descent; member order is preserved. -/
def parseV : Nat → List Tok → Option (JValue × List Tok)
  | 0, _ => none
  | _ + 1, [] => none
  | f + 1, t :: ts =>
    match t with
    | .null => some (.null, ts)
    | .bool b => some (.bool b, ts)
    | .int n => some (.int n, ts)
    | .float v => some (.float v, ts)
    | .str s => some (.str s, ts)
    | .lbrack =>
      if ts.head? = some Tok.rbrack then some (.arr .nil, ts.tail)
      else
        match parseArrItems f ts with
        | some (xs, ts1) => some (.arr xs, ts1)
        | none => none
    | .lbrace =>
      if ts.head? = some Tok.rbrace then some (.obj .nil, ts.tail)
      else
        match parseObjItems f ts with
        | some (kvs, ts1) => some (.obj kvs, ts1)
        | none => none
    | _ => none

/-- Modelled from the spec: array elements after `[` (nonempty case). -/
def parseArrItems : Nat → List Tok → Option (JArr × List Tok)
  | 0, _ => none
  | f + 1, ts =>
    match parseV f ts with
    | some (v, ts1) =>
      match ts1 with
      | .comma :: ts2 => (parseArrItems f ts2).map (fun r => (.cons v r.1, r.2))
      | .rbrack :: ts2 => some (.cons v .nil, ts2)
      | _ => none
    | none => none

/-- Modelled from the spec: object members after the opening brace
(nonempty case). -/
def parseObjItems : Nat → List Tok → Option (JObj × List Tok)
  | 0, _ => none
  | f + 1, ts =>
    match ts with
    | .str k :: .colon :: ts1 =>
      match parseV f ts1 with
      | some (v, ts2) =>
        match ts2 with
        | .comma :: ts3 => (parseObjItems f ts3).map (fun r => (.cons k v r.1, r.2))
        | .rbrace :: ts3 => some (.cons k v .nil, ts3)
        | _ => none
      | none => none
    | _ => none
end

mutual
/-- The value the external parser recovers from a compact serialization:
floats folded to integers by the decision rule come back as integers,
non-finite floats come back as `null`, everything else is unchanged. -/
def normV : JValue → JValue
  | .null => .null
  | .bool b => .bool b
  | .int n => .int n
  | .float v =>
    if v.expF = 2047 then .null
    else
      match CompactV8Formatter.writeF64Tok v with
      | .int n => .int n
      | _ => .float v
  | .str s => .str s
  | .arr xs => .arr (normA xs)
  | .obj kvs => .obj (normO kvs)

/-- Elementwise `normV` on arrays. -/
def normA : JArr → JArr
  | .nil => .nil
  | .cons v tl => .cons (normV v) (normA tl)

/-- Elementwise `normV` on objects. -/
def normO : JObj → JObj
  | .nil => .nil
  | .cons k v tl => .cons k (normV v) (normO tl)
end

mutual
/-- Structural size of a value: enough parser fuel for its serialization. -/
def sizeV : JValue → Nat
  | .null => 1
  | .bool _ => 1
  | .int _ => 1
  | .float _ => 1
  | .str _ => 1
  | .arr xs => sizeA xs + 1
  | .obj kvs => sizeO kvs + 1

/-- Structural size of array elements. -/
def sizeA : JArr → Nat
  | .nil => 1
  | .cons v tl => sizeV v + sizeA tl + 1

/-- Structural size of object members. -/
def sizeO : JObj → Nat
  | .nil => 1
  | .cons _ v tl => sizeV v + sizeO tl + 1
end

/-- The example value `{"a": 1.5, "b": [2, 3.0]}` of spec §8. -/
def sampleValue : JValue :=
  .obj (.cons ['a'] (.float f64OnePointFive)
    (.cons ['b'] (.arr (.cons (.int 2) (.cons (.float f64Three) .nil))) .nil))

instance : DecidableEq Empty := fun a _ => a.elim

instance {ε α : Type} [DecidableEq ε] [DecidableEq α] : DecidableEq (Except ε α) := by
  intro x y
  cases x <;> cases y
  case error.error a b =>
    exact if h : a = b then .isTrue (by rw [h]) else .isFalse (by simp [h])
  case ok.ok a b =>
    exact if h : a = b then .isTrue (by rw [h]) else .isFalse (by simp [h])
  case error.ok a b => exact .isFalse (by simp)
  case ok.error a b => exact .isFalse (by simp)


/-! ## Arithmetic lemmas -/

theorem pw_eq (k : Nat) : pw k = 2 ^ k := rfl

theorem pw_pos (k : Nat) : 0 < pw k := by rw [pw_eq]; positivity

theorem pw_add (a b : Nat) : pw (a + b) = pw a * pw b := by
  simp [pw_eq, pow_add]

theorem two_pow_pred (m : Nat) (h : 1 ≤ m) : 2 ^ m = 2 * 2 ^ (m - 1) := by
  have h1 : m - 1 + 1 = m := by omega
  calc 2 ^ m = 2 ^ (m - 1 + 1) := by rw [h1]
    _ = 2 ^ (m - 1) * 2 := pow_succ 2 (m - 1)
    _ = 2 * 2 ^ (m - 1) := by ring

theorem pw_pred (sh : Nat) (h : 1 ≤ sh) : pw sh = 2 * pw (sh - 1) := by
  rw [pw_eq, pw_eq]; exact two_pow_pred sh h

theorem bitlenF_zero : ∀ f, bitlenF f 0 = 0 := by
  intro f; cases f <;> simp [bitlenF]

theorem bitlenF_le : ∀ (f n m : Nat), n < 2 ^ m → bitlenF f n ≤ m := by
  intro f
  induction f with
  | zero => intro n m _; exact Nat.zero_le m
  | succ f ih =>
    intro n m h
    unfold bitlenF
    split
    · exact Nat.zero_le m
    · rename_i hn
      have hm : 1 ≤ m := by
        rcases Nat.eq_zero_or_pos m with hm0 | hm1
        · subst hm0; simp at h; omega
        · exact hm1
      have hsp : 2 ^ m = 2 * 2 ^ (m - 1) := two_pow_pred m hm
      have hdiv : n / 2 < 2 ^ (m - 1) := by omega
      have := ih (n / 2) (m - 1) hdiv
      omega

theorem bitlenF_bounds : ∀ (f n : Nat), 0 < n → n < 2 ^ f →
    2 ^ (bitlenF f n - 1) ≤ n ∧ n < 2 ^ bitlenF f n := by
  intro f
  induction f with
  | zero => intro n h1 h2; simp at h2; omega
  | succ f ih =>
    intro n h1 h2
    have hn : n ≠ 0 := by omega
    rcases Nat.lt_or_ge n 2 with hsm | hlg
    · have : n = 1 := by omega
      subst this
      simp [bitlenF, bitlenF_zero]
    · have hd1 : 0 < n / 2 := by omega
      have hsp : 2 ^ (f + 1) = 2 * 2 ^ f := by rw [pow_succ]; ring
      have hd2 : n / 2 < 2 ^ f := by omega
      have ihh := ih (n / 2) hd1 hd2
      have hb1 : 1 ≤ bitlenF f (n / 2) := by
        cases f with
        | zero => simp at hd2; omega
        | succ g =>
          simp only [bitlenF]
          rw [if_neg (by omega)]
          omega
      set b := bitlenF f (n / 2) with hb
      have hup : 2 ^ (b + 1) = 2 * 2 ^ b := by rw [pow_succ]; ring
      have hlo : 2 ^ b = 2 * 2 ^ (b - 1) := two_pow_pred b hb1
      have hbl : bitlenF (f + 1) n = b + 1 := by
        simp only [bitlenF]
        rw [if_neg hn]
      rw [hbl]
      constructor
      · simp only [Nat.add_sub_cancel]
        omega
      · omega

theorem bitlen_le {n m : Nat} (h : n < 2 ^ m) : bitlen n ≤ m := bitlenF_le 4096 n m h

theorem natCastRound_exact (prec M E : Nat) (hM : M < 2 ^ prec) :
    natCastRound prec (M * 2 ^ E) = M * 2 ^ E := by
  have hlt : M * 2 ^ E < 2 ^ (prec + E) := by
    rw [pow_add]
    exact mul_lt_mul_of_pos_right hM (by positivity)
  have hle : bitlen (M * 2 ^ E) ≤ prec + E := bitlen_le hlt
  have hsE : bitlen (M * 2 ^ E) - prec ≤ E := by omega
  by_cases h0 : bitlen (M * 2 ^ E) - prec = 0
  · simp [natCastRound, h0]
  · have hdvd : pw (bitlen (M * 2 ^ E) - prec) ∣ M * 2 ^ E := by
      rw [pw_eq]
      exact Dvd.dvd.mul_left (pow_dvd_pow 2 hsE) M
    have hmod : M * 2 ^ E % pw (bitlen (M * 2 ^ E) - prec) = 0 :=
      Nat.dvd_iff_mod_eq_zero.1 hdvd
    have hne : (0 : Nat) ≠ pw (bitlen (M * 2 ^ E) - prec - 1) := (pw_pos _).ne
    simp only [natCastRound, h0, if_false, hmod]
    rw [if_neg (by have := pw_pos (bitlen (M * 2 ^ E) - prec - 1); omega)]
    exact Nat.div_mul_cancel hdvd

theorem roundAwayNat_mul (sh m : Nat) (h : 1 ≤ sh) : roundAwayNat sh (m * pw sh) = m := by
  unfold roundAwayNat
  have h1 : pw sh = 2 * pw (sh - 1) := pw_pred sh h
  have h2 : 0 < pw (sh - 1) := pw_pos _
  have h3 : pw sh / 2 = pw (sh - 1) := by omega
  rw [h3, Nat.mul_comm, Nat.mul_add_div (pw_pos sh), Nat.div_eq_of_lt (by omega)]
  omega

theorem roundAwayNat_le (sh a c : Nat) (h : 1 ≤ sh) (ha : a < c * pw sh) :
    roundAwayNat sh a ≤ c := by
  unfold roundAwayNat
  have h1 : pw sh = 2 * pw (sh - 1) := pw_pred sh h
  have h2 : 0 < pw (sh - 1) := pw_pos _
  have hlt : (a + pw sh / 2) / pw sh < c + 1 := by
    rw [Nat.div_lt_iff_lt_mul (pw_pos sh)]
    have : (c + 1) * pw sh = c * pw sh + pw sh := by ring
    omega
  exact Nat.lt_succ_iff.mp hlt

theorem pw_le_pw {a b : Nat} (h : a ≤ b) : pw a ≤ pw b := by
  rw [pw_eq, pw_eq]; exact Nat.pow_le_pow_right (by norm_num) h

theorem pw_dvd_pw {a b : Nat} (h : a ≤ b) : pw a ∣ pw b := by
  rw [pw_eq, pw_eq]; exact pow_dvd_pow 2 h

theorem pw63_eq : pw 63 = 9223372036854775808 := by norm_num [pw_eq]

/-! ## Value lemmas for binary64 patterns -/

theorem F64.natAbs_valNum (v : F64) : v.valNum.natAbs = v.magNum := by
  unfold F64.valNum; split <;> simp

/-- A finite pattern with exponent field at most 1074 has magnitude below
`2 ^ 52`. -/
theorem F64.magNum_lt (v : F64) (hWf : v.Wf) (h : v.expF ≤ 1074) :
    v.magNum < pw 52 * pw 1074 := by
  obtain ⟨hE, hF⟩ := hWf
  unfold F64.magNum
  split
  · calc v.frac < pw 52 := hF
      _ ≤ pw 52 * pw 1074 := Nat.le_mul_of_pos_right _ (pw_pos _)
  · have h1 : pw 52 + v.frac < pw 53 := by
      have h53 : pw 53 = 2 * pw 52 := pw_pred 53 (by norm_num)
      omega
    calc (pw 52 + v.frac) * pw (v.expF - 1)
        < pw 53 * pw (v.expF - 1) := mul_lt_mul_of_pos_right h1 (pw_pos _)
      _ ≤ pw 53 * pw 1073 := Nat.mul_le_mul le_rfl (pw_le_pw (by omega))
      _ = pw 52 * pw 1074 := by rw [← pw_add, ← pw_add]

/-- A finite pattern with exponent field at least 1075 has integral value. -/
theorem F64.dvd_magNum (v : F64) (h : 1075 ≤ v.expF) : pw 1074 ∣ v.magNum := by
  unfold F64.magNum
  rw [if_neg (by omega)]
  exact Dvd.dvd.mul_left (pw_dvd_pw (by omega)) _

theorem F64.magNum_of_valNum_mul (v : F64) {n : Int}
    (hval : v.valNum = n * (pw 1074 : Int)) : v.magNum = n.natAbs * pw 1074 := by
  have h := congrArg Int.natAbs hval
  rwa [F64.natAbs_valNum, Int.natAbs_mul, Int.natAbs_ofNat] at h

/-- Casting back the integer value of an integer-valued finite double is
exact: the double's value is representable, so the `i64 → f64` rounding
returns it unchanged. -/
theorem i64ToF64_fix (v : F64) (n : Int) (hWf : v.Wf)
    (hval : v.valNum = n * (pw 1074 : Int)) : i64ToF64 n = n := by
  have hmag := F64.magNum_of_valNum_mul v hval
  have hcast : natCastRound 53 n.natAbs = n.natAbs := by
    rcases Nat.lt_or_ge n.natAbs (pw 53) with hsmall | hbig
    · have h1 := natCastRound_exact 53 n.natAbs 0 (by rw [← pw_eq]; exact hsmall)
      simpa using h1
    · have hE : 1075 ≤ v.expF := by
        by_contra hc
        push_neg at hc
        have hlt := F64.magNum_lt v hWf (by omega)
        have hA : pw 53 * pw 1074 ≤ n.natAbs * pw 1074 := Nat.mul_le_mul hbig le_rfl
        have hB : pw 52 * pw 1074 < pw 53 * pw 1074 := by
          have h52 : pw 52 < pw 53 := by
            have h53 : pw 53 = 2 * pw 52 := pw_pred 53 (by norm_num)
            have := pw_pos 52
            omega
          exact mul_lt_mul_of_pos_right h52 (pw_pos _)
        omega
      have hne0 : v.expF ≠ 0 := by omega
      unfold F64.magNum at hmag
      rw [if_neg hne0] at hmag
      have hsplit : pw (v.expF - 1) = pw (v.expF - 1075) * pw 1074 := by
        rw [← pw_add]; congr 1; omega
      rw [hsplit, ← Nat.mul_assoc] at hmag
      have hcancel : (pw 52 + v.frac) * pw (v.expF - 1075) = n.natAbs :=
        Nat.eq_of_mul_eq_mul_right (pw_pos 1074) hmag
      have hM : pw 52 + v.frac < 2 ^ 53 := by
        have h53 : pw 53 = 2 * pw 52 := pw_pred 53 (by norm_num)
        have := hWf.2
        rw [← pw_eq]
        omega
      have h2 := natCastRound_exact 53 (pw 52 + v.frac) (v.expF - 1075) hM
      rw [← pw_eq] at h2
      rw [← hcancel]
      exact h2
  unfold i64ToF64
  split <;> (rw [hcast]; omega)

/-- When a finite double has integer value `n` in the `i64` range, the Rust
expression `value.round() as i64` returns exactly `n`. -/
theorem nearestIntF64_fix (v : F64) (n : Int) (hfin : v.expF ≠ 2047)
    (hval : v.valNum = n * (pw 1074 : Int)) (hlo : i64Min ≤ n) (hhi : n ≤ i64Max) :
    nearestIntF64 v = n := by
  have hmag := F64.magNum_of_valNum_mul v hval
  have hr : roundAwayNat 1074 v.magNum = n.natAbs := by
    rw [hmag]; exact roundAwayNat_mul 1074 _ (by omega)
  have h63 := pw63_eq
  have hp74 : (0 : Int) < (pw 1074 : Int) := by exact_mod_cast pw_pos 1074
  have hmg : (0 : Int) ≤ (v.magNum : Int) := Int.natCast_nonneg _
  have hminEq : i64Min = (-9223372036854775808 : Int) := rfl
  have hmaxEq : i64Max = (9223372036854775807 : Int) := rfl
  cases hs : v.sign with
  | true =>
    have hneg : v.valNum = -(v.magNum : Int) := by unfold F64.valNum; rw [hs]; simp
    have hn0 : n ≤ 0 := by
      by_contra hc
      push_neg at hc
      have hpos : 0 < n * (pw 1074 : Int) := mul_pos hc hp74
      rw [hneg] at hval
      omega
    simp [nearestIntF64, hfin, hs, hr, -Int.natCast_natAbs]
    by_cases hsat : pw 63 ≤ n.natAbs
    · rw [if_pos hsat]
      omega
    · rw [if_neg hsat]
      omega
  | false =>
    have hposv : v.valNum = (v.magNum : Int) := by unfold F64.valNum; rw [hs]; simp
    have hn0 : 0 ≤ n := by
      by_contra hc
      push_neg at hc
      have hneg2 : n * (pw 1074 : Int) < 0 := mul_neg_of_neg_of_pos hc hp74
      rw [hposv] at hval
      omega
    simp [nearestIntF64, hfin, hs, hr, -Int.natCast_natAbs]
    by_cases hsat : pw 63 ≤ n.natAbs
    · rw [if_pos hsat]
      omega
    · rw [if_neg hsat]
      omega

/-- The integer branch of the decision rule: a finite double with integer
value `n` in the `i64` range makes `value == (nearest_int as f64)` succeed
with `nearest_int = n`, for both formatters. -/
theorem writeF64Tok_int (v : F64) (n : Int) (hWf : v.Wf) (hfin : v.expF ≠ 2047)
    (hval : v.valNum = n * (pw 1074 : Int)) (hlo : i64Min ≤ n) (hhi : n ≤ i64Max) :
    CompactV8Formatter.writeF64Tok v = Tok.int n ∧
      PrettyV8Formatter.writeF64Tok v = Tok.int n := by
  have hnear := nearestIntF64_fix v n hfin hval hlo hhi
  have hfix := i64ToF64_fix v n hWf hval
  have heq : v.eqInt (i64ToF64 n) = true := by
    rw [hfix]
    unfold F64.eqInt
    rw [if_neg hfin]
    exact decide_eq_true hval
  constructor
  · simp [CompactV8Formatter.writeF64Tok, heq, hnear]
  · simp [PrettyV8Formatter.writeF64Tok, heq, hnear]

/-- The condition in spec §8's first bullet, stated on the embedded data:
the double is finite with integral value (`v == round(v)`) and that value
fits in an `i64`. -/
def IntegralFits (v : F64) : Prop :=
  v.expF ≠ 2047 ∧ v.valNum % (pw 1074 : Int) = 0 ∧
    -((pw 63 : Int) * (pw 1074 : Int)) ≤ v.valNum ∧
    v.valNum < (pw 63 : Int) * (pw 1074 : Int)

instance (v : F64) : Decidable (IntegralFits v) := by
  unfold IntegralFits; infer_instance

theorem i64ToF64_max : i64ToF64 i64Max = ((pw 63 : Nat) : Int) := by decide

theorem i64ToF64_min : i64ToF64 i64Min = -((pw 63 : Nat) : Int) := by decide

/-- The float branch of the decision rule: whenever the double is not a
finite integral value in the `i64` range — excepting the single double
`2 ^ 63` — the equality test fails and the value goes, unchanged, to the base
formatter's float rendering. -/
theorem writeF64Tok_float (v : F64) (hnf : ¬ IntegralFits v)
    (hne : v.valNum ≠ (pw 63 : Int) * (pw 1074 : Int)) :
    CompactV8Formatter.writeF64Tok v = Tok.float v ∧
      PrettyV8Formatter.writeF64Tok v = Tok.float v := by
  suffices h : v.eqInt (i64ToF64 (nearestIntF64 v)) = false by
    constructor
    · simp [CompactV8Formatter.writeF64Tok, h]
    · simp [PrettyV8Formatter.writeF64Tok, h]
  by_cases hfin : v.expF = 2047
  · unfold F64.eqInt; rw [if_pos hfin]
  · unfold F64.eqInt
    rw [if_neg hfin]
    rw [decide_eq_false_iff_not]
    have hp74 : (0 : Int) < (pw 1074 : Int) := by exact_mod_cast pw_pos 1074
    by_cases hdvd : v.valNum % (pw 1074 : Int) = 0
    · -- integral value whose magnitude exceeds the `i64` range
      obtain ⟨m, hm⟩ : ∃ m : Int, v.valNum = m * (pw 1074 : Int) := by
        obtain ⟨k, hk⟩ := Int.dvd_of_emod_eq_zero hdvd
        exact ⟨k, by rw [hk]; ring⟩
      have hp74ne : ((pw 1074 : Nat) : Int) ≠ 0 := by omega
      have hmag := F64.magNum_of_valNum_mul v hm
      have hr : roundAwayNat 1074 v.magNum = m.natAbs := by
        rw [hmag]; exact roundAwayNat_mul 1074 _ (by omega)
      have h63 := pw63_eq
      have hbfail : ¬ (-((pw 63 : Int) * (pw 1074 : Int)) ≤ v.valNum ∧
          v.valNum < (pw 63 : Int) * (pw 1074 : Int)) :=
        fun hb => hnf ⟨hfin, hdvd, hb.1, hb.2⟩
      have hprod : (0 : Int) < (pw 63 : Int) * (pw 1074 : Int) :=
        mul_pos (by exact_mod_cast pw_pos 63) hp74
      cases hs : v.sign with
      | false =>
        have hposv : v.valNum = (v.magNum : Int) := by unfold F64.valNum; rw [hs]; simp
        have hv0 : 0 ≤ v.valNum := by rw [hposv]; exact Int.natCast_nonneg _
        have hup : (pw 63 : Int) * (pw 1074 : Int) ≤ v.valNum := by
          by_contra hc
          push_neg at hc
          exact hbfail ⟨by omega, hc⟩
        have hm63 : (pw 63 : Int) < m := by
          have hlt : (pw 63 : Int) * (pw 1074 : Int) < v.valNum :=
            lt_of_le_of_ne hup (fun hx => hne hx.symm)
          rw [hm] at hlt
          exact lt_of_mul_lt_mul_right hlt (le_of_lt hp74)
        have hmaxEq : i64Max = (9223372036854775807 : Int) := rfl
        have hnear : nearestIntF64 v = i64Max := by
          simp [nearestIntF64, hfin, hs, hr, -Int.natCast_natAbs]
          omega
        rw [hnear, i64ToF64_max]
        exact hne
      | true =>
        have hnegv : v.valNum = -(v.magNum : Int) := by unfold F64.valNum; rw [hs]; simp
        have hv0 : v.valNum ≤ 0 := by
          rw [hnegv]
          have := Int.natCast_nonneg v.magNum
          omega
        have hlowF : v.valNum < -((pw 63 : Int) * (pw 1074 : Int)) := by
          by_contra hc
          push_neg at hc
          exact hbfail ⟨hc, by omega⟩
        have hm63 : m < -(pw 63 : Int) := by
          have hlt : m * (pw 1074 : Int) < -(pw 63 : Int) * (pw 1074 : Int) := by
            rw [← hm, neg_mul]
            exact hlowF
          exact lt_of_mul_lt_mul_right hlt (le_of_lt hp74)
        have hminEq : i64Min = (-9223372036854775808 : Int) := rfl
        have hnear : nearestIntF64 v = i64Min := by
          simp [nearestIntF64, hfin, hs, hr, -Int.natCast_natAbs]
          omega
        rw [hnear, i64ToF64_min]
        intro hcontra
        rw [hm] at hcontra
        have := mul_right_cancel₀ hp74ne hcontra
        omega
    · -- non-integral value: the cast-back is an integer, the value is not
      intro heq
      apply hdvd
      rw [heq]
      exact Int.mul_emod_left _ _

/-- Uniqueness of the saturation anomaly: whenever the integer branch fires
with a token whose numeric value differs from the double's value, that double
is `2 ^ 63`. -/
theorem intBranch_unequal_unique (v : F64) (n : Int)
    (htok : CompactV8Formatter.writeF64Tok v = Tok.int n)
    (hne : n * (pw 1074 : Int) ≠ v.valNum) :
    v.valNum = (pw 63 : Int) * (pw 1074 : Int) := by
  have h63 := pw63_eq
  have hp74 : (0 : Int) < (pw 1074 : Int) := by exact_mod_cast pw_pos 1074
  cases hc : v.eqInt (i64ToF64 (nearestIntF64 v)) with
  | false =>
    exfalso
    simp [CompactV8Formatter.writeF64Tok, hc] at htok
  | true =>
    have hn : nearestIntF64 v = n := by
      simp [CompactV8Formatter.writeF64Tok, hc] at htok
      exact htok
    by_cases hfin : v.expF = 2047
    · exfalso
      unfold F64.eqInt at hc
      rw [if_pos hfin] at hc
      exact Bool.false_ne_true hc
    · have hval : v.valNum = i64ToF64 n * (pw 1074 : Int) := by
        unfold F64.eqInt at hc
        rw [if_neg hfin] at hc
        rw [← hn]
        exact of_decide_eq_true hc
      have hmag := F64.magNum_of_valNum_mul v hval
      have hr : roundAwayNat 1074 v.magNum = (i64ToF64 n).natAbs := by
        rw [hmag]; exact roundAwayNat_mul 1074 _ (by omega)
      have hnt : n ≠ i64ToF64 n := fun hx => hne (by rw [hx, ← hval])
      have hmaxEq : i64Max = (9223372036854775807 : Int) := rfl
      have hminEq : i64Min = (-9223372036854775808 : Int) := rfl
      cases hs : v.sign with
      | false =>
        have hposv : v.valNum = (v.magNum : Int) := by unfold F64.valNum; rw [hs]; simp
        have ht0 : 0 ≤ i64ToF64 n := by
          by_contra hcn
          push_neg at hcn
          have : i64ToF64 n * (pw 1074 : Int) < 0 := mul_neg_of_neg_of_pos hcn hp74
          have := Int.natCast_nonneg v.magNum
          omega
        have hbr : nearestIntF64 v =
            if pw 63 ≤ (i64ToF64 n).natAbs then i64Max else ((i64ToF64 n).natAbs : Int) := by
          simp [nearestIntF64, hfin, hs, hr, -Int.natCast_natAbs]
        by_cases hsat : pw 63 ≤ (i64ToF64 n).natAbs
        · rw [hbr, if_pos hsat] at hn
          have : i64ToF64 n = ((pw 63 : Nat) : Int) := by
            rw [← hn, i64ToF64_max]
          rw [hval, this]
        · exfalso
          rw [hbr, if_neg hsat] at hn
          apply hnt
          omega
      | true =>
        have hnegv : v.valNum = -(v.magNum : Int) := by unfold F64.valNum; rw [hs]; simp
        have ht0 : i64ToF64 n ≤ 0 := by
          by_contra hcn
          push_neg at hcn
          have : 0 < i64ToF64 n * (pw 1074 : Int) := mul_pos hcn hp74
          have := Int.natCast_nonneg v.magNum
          omega
        have hbr : nearestIntF64 v =
            if pw 63 ≤ (i64ToF64 n).natAbs then i64Min
            else -(((i64ToF64 n).natAbs : Int)) := by
          simp [nearestIntF64, hfin, hs, hr, -Int.natCast_natAbs]
        by_cases hsat : pw 63 ≤ (i64ToF64 n).natAbs
        · exfalso
          rw [hbr, if_pos hsat] at hn
          have hteq : i64ToF64 n = -((pw 63 : Nat) : Int) := by
            rw [← hn, i64ToF64_min]
          apply hnt
          omega
        · exfalso
          rw [hbr, if_neg hsat] at hn
          apply hnt
          omega

/-! ## Binary32 lemmas -/

/-- The float branch of the 32-bit decision rule: a non-integral binary32
value fails the equality test (its value is not an integer while the cast of
`nearest_int` back to `f32` is), so the 64-bit promotion goes to the base
formatter's single float-rendering path. -/
theorem writeF32Tok_float (v : F32) (hdvd : v.valNum % (pw 149 : Int) ≠ 0) :
    CompactV8Formatter.writeF32Tok v = Tok.float (promoteF32 v) ∧
      PrettyV8Formatter.writeF32Tok v = Tok.float (promoteF32 v) := by
  suffices h : v.eqInt (i64ToF32 (nearestIntF32 v)) = false by
    constructor
    · simp [CompactV8Formatter.writeF32Tok, h]
    · simp [PrettyV8Formatter.writeF32Tok, h]
  by_cases hfin : v.expF = 255
  · unfold F32.eqInt; rw [if_pos hfin]
  · unfold F32.eqInt
    rw [if_neg hfin]
    rw [decide_eq_false_iff_not]
    intro heq
    apply hdvd
    rw [heq]
    exact Int.mul_emod_left _ _

/-- The `f32` to `f64` promotion is exact: the promoted pattern is
well-formed, finite, and denotes the same value (scaled magnitudes differ by
the factor `2 ^ 925 = 2 ^ 1074 / 2 ^ 149`). -/
theorem promoteF32_exact (v : F32) (hWf : v.Wf) (hfin : v.expF ≠ 255) :
    (promoteF32 v).Wf ∧ (promoteF32 v).expF ≠ 2047 ∧ (promoteF32 v).sign = v.sign ∧
      (promoteF32 v).magNum = v.magNum * pw 925 := by
  obtain ⟨hE, hF⟩ := hWf
  by_cases h0 : v.expF = 0
  · by_cases hf0 : v.frac = 0
    · have hpr : promoteF32 v = ⟨v.sign, 0, 0⟩ := by
        unfold promoteF32
        rw [if_neg hfin, if_pos h0, if_pos hf0]
      rw [hpr]
      refine ⟨⟨by norm_num, pw_pos 52⟩, by norm_num, rfl, ?_⟩
      show F64.magNum ⟨v.sign, 0, 0⟩ = v.magNum * pw 925
      unfold F64.magNum F32.magNum
      rw [if_pos rfl, if_pos h0, hf0]
      simp
    · -- nonzero subnormal: normalize using the bit length of the fraction
      have hfpos : 0 < v.frac := Nat.pos_of_ne_zero hf0
      have hfr : v.frac < 2 ^ 4096 := by
        have h1 : pw 23 ≤ pw 4096 := pw_le_pw (by norm_num)
        rw [← pw_eq]
        omega
      have hbnd : 2 ^ (bitlen v.frac - 1) ≤ v.frac ∧ v.frac < 2 ^ bitlen v.frac :=
        bitlenF_bounds 4096 v.frac hfpos hfr
      have hble : bitlen v.frac ≤ 23 := by
        have h2 : v.frac < 2 ^ 23 := by rw [← pw_eq]; exact hF
        exact bitlen_le h2
      obtain ⟨b, hbdef⟩ : ∃ b, b = bitlen v.frac := ⟨_, rfl⟩
      rw [← hbdef] at hbnd hble
      have hb1 : 1 ≤ b := by
        rcases Nat.eq_zero_or_pos b with hz | hp
        · exfalso; rw [hz] at hbnd; simp at hbnd; omega
        · exact hp
      have hlow : pw (b - 1) ≤ v.frac := by rw [pw_eq]; exact hbnd.1
      have hhigh : v.frac < pw b := by rw [pw_eq]; exact hbnd.2
      have hge : pw 52 ≤ v.frac * pw (53 - b) := by
        have e2 : b - 1 + (53 - b) = 52 := by omega
        calc pw 52 = pw (b - 1 + (53 - b)) := by rw [e2]
          _ = pw (b - 1) * pw (53 - b) := pw_add _ _
          _ ≤ v.frac * pw (53 - b) := Nat.mul_le_mul hlow le_rfl
      have hlt : v.frac * pw (53 - b) < pw 53 := by
        have e2 : b + (53 - b) = 53 := by omega
        calc v.frac * pw (53 - b) < pw b * pw (53 - b) :=
              mul_lt_mul_of_pos_right hhigh (pw_pos _)
          _ = pw (b + (53 - b)) := (pw_add _ _).symm
          _ = pw 53 := by rw [e2]
      have h53 : pw 53 = 2 * pw 52 := pw_pred 53 (by norm_num)
      have hpr : promoteF32 v = ⟨v.sign, b + 873, v.frac * pw (53 - b) - pw 52⟩ := by
        rw [hbdef]
        unfold promoteF32
        rw [if_neg hfin, if_pos h0, if_neg hf0]
      rw [hpr]
      refine ⟨⟨?_, ?_⟩, ?_, rfl, ?_⟩
      · show b + 873 < 2048
        omega
      · show v.frac * pw (53 - b) - pw 52 < pw 52
        omega
      · show b + 873 ≠ 2047
        omega
      · show F64.magNum ⟨v.sign, b + 873, v.frac * pw (53 - b) - pw 52⟩ = v.magNum * pw 925
        unfold F64.magNum F32.magNum
        rw [if_neg (by show ¬ (b + 873 = 0); omega), if_pos h0]
        have hadd : pw 52 + (v.frac * pw (53 - b) - pw 52) = v.frac * pw (53 - b) := by
          omega
        show (pw 52 + (v.frac * pw (53 - b) - pw 52)) * pw (b + 873 - 1) = v.frac * pw 925
        rw [hadd]
        have hexp : b + 873 - 1 = b + 872 := by omega
        rw [hexp]
        have e1 : pw (53 - b) * pw (b + 872) = pw (53 - b + (b + 872)) := (pw_add _ _).symm
        have e2 : 53 - b + (b + 872) = 925 := by omega
        rw [mul_assoc, e1, e2]
  · -- normal binary32 value
    have hpr : promoteF32 v = ⟨v.sign, v.expF + 896, v.frac * pw 29⟩ := by
      unfold promoteF32
      rw [if_neg hfin, if_neg h0]
    have h52 : pw 52 = pw 23 * pw 29 := pw_add 23 29
    rw [hpr]
    refine ⟨⟨?_, ?_⟩, ?_, rfl, ?_⟩
    · show v.expF + 896 < 2048
      omega
    · show v.frac * pw 29 < pw 52
      calc v.frac * pw 29 < pw 23 * pw 29 := mul_lt_mul_of_pos_right hF (pw_pos _)
        _ = pw 52 := h52.symm
    · show v.expF + 896 ≠ 2047
      omega
    · show F64.magNum ⟨v.sign, v.expF + 896, v.frac * pw 29⟩ = v.magNum * pw 925
      unfold F64.magNum F32.magNum
      rw [if_neg (by show ¬ (v.expF + 896 = 0); omega), if_neg h0]
      show (pw 52 + v.frac * pw 29) * pw (v.expF + 896 - 1) =
        (pw 23 + v.frac) * pw (v.expF - 1) * pw 925
      have hexp : v.expF + 896 - 1 = v.expF - 1 + 896 := by omega
      have e1 : pw (v.expF - 1 + 896) = pw (v.expF - 1) * pw 896 := pw_add _ _
      have e3 : pw 925 = pw 29 * pw 896 := pw_add 29 896
      rw [hexp, e1, h52, e3]
      ring

/-- Same-value conclusion for the promotion, at the level of exact rational
values. -/
theorem promoteF32_val (v : F32) (hWf : v.Wf) (hfin : v.expF ≠ 255) :
    (promoteF32 v).val = v.val := by
  obtain ⟨_, _, hsgn, hmag⟩ := promoteF32_exact v hWf hfin
  have hnum : (promoteF32 v).valNum = v.valNum * (pw 925 : Int) := by
    unfold F64.valNum F32.valNum
    rw [hsgn, hmag]
    cases v.sign <;> simp
  unfold F64.val F32.val
  rw [hnum]
  have hq : ((pw 925 : Nat) : ℚ) = 2 ^ 925 := by
    rw [pw_eq]; push_cast; ring
  push_cast [hq]
  have hpow : (2 : ℚ) ^ 1074 = 2 ^ 925 * 2 ^ 149 := by rw [← pow_add]
  rw [hpow]
  field_simp
  ring


/-! ## Decimal-digit lemmas -/

theorem natDecimalF_mem : ∀ (f n : Nat), ∀ c ∈ natDecimalF f n,
    ∃ d, d < 10 ∧ c = digitChar d := by
  intro f
  induction f with
  | zero => intro n c hc; simp [natDecimalF] at hc
  | succ f ih =>
    intro n c hc
    unfold natDecimalF at hc
    by_cases hn : n = 0
    · rw [if_pos hn] at hc; simp at hc
    · rw [if_neg hn] at hc
      rcases List.mem_append.1 hc with h1 | h2
      · exact ih _ c h1
      · simp at h2
        exact ⟨n % 10, Nat.mod_lt _ (by norm_num), h2⟩

theorem intDecimal_mem (n : Int) : ∀ c ∈ intDecimal n,
    c = Char.ofNat 45 ∨ ∃ d, d < 10 ∧ c = digitChar d := by
  intro c hc
  unfold intDecimal at hc
  by_cases hn : n < 0
  · rw [if_pos hn] at hc
    rcases List.mem_cons.1 hc with h1 | h2
    · exact Or.inl h1
    · right
      unfold natDecimal at h2
      by_cases hz : n.natAbs = 0
      · rw [if_pos hz] at h2; simp at h2; exact ⟨0, by norm_num, h2⟩
      · rw [if_neg hz] at h2; exact natDecimalF_mem 40 _ c h2
  · rw [if_neg hn] at hc
    right
    unfold natDecimal at hc
    by_cases hz : n.natAbs = 0
    · rw [if_pos hz] at hc; simp at hc; exact ⟨0, by norm_num, hc⟩
    · rw [if_neg hz] at hc; exact natDecimalF_mem 40 _ c hc

/-- The decimal rendering of an integer token contains no decimal point and
no exponent marker. -/
theorem intDecimal_no_dot_exp (n : Int) :
    '.' ∉ intDecimal n ∧ 'e' ∉ intDecimal n ∧ 'E' ∉ intDecimal n := by
  refine ⟨?_, ?_, ?_⟩ <;>
    · intro hc
      rcases intDecimal_mem n _ hc with h | ⟨d, hd, h⟩
      · exact absurd h (by decide)
      · interval_cases d <;> exact absurd h (by decide)

/-! ## Value-from-scaled-integer helpers -/

theorem F64.val_of_valNum {v : F64} {n : Int} (h : v.valNum = n * (pw 1074 : Int)) :
    v.val = (n : ℚ) := by
  unfold F64.val
  rw [h]
  have hq : ((pw 1074 : Int) : ℚ) = 2 ^ 1074 := by rw [pw_eq]; push_cast; ring
  push_cast [hq]
  field_simp

theorem F32.val_of_valNum32 {v : F32} {n : Int} (h : v.valNum = n * (pw 149 : Int)) :
    v.val = (n : ℚ) := by
  unfold F32.val
  rw [h]
  have hq : ((pw 149 : Int) : ℚ) = 2 ^ 149 := by rw [pw_eq]; push_cast; ring
  push_cast [hq]
  field_simp




/-! ## Claim theorems -/

/-- C1: for every binary64 value `v` passed to `write_f64` of either
`CompactV8Formatter` or `PrettyV8Formatter` such that `v` equals `round(v)`
and `round(v)` fits in a 64-bit signed integer (formally: `v` is finite with
exact integer value `n` and `-2^63 ≤ n < 2^63`), the emitted token is the
plain decimal integer `n`: the decision rule resolves to the base
formatter's `write_i64` with argument `n`, whose decimal rendering has no
decimal point and no exponent; and in particular `-0.0` emits the token `0`
with the sign discarded. -/
theorem C1_integral_emits_plain_integer :
    (∀ (v : F64) (n : Int), v.Wf → v.expF ≠ 2047 →
      v.valNum = n * (pw 1074 : Int) →
      -(pw 63 : Int) ≤ n → n < (pw 63 : Int) →
      v.val = (n : ℚ) ∧
      CompactV8Formatter.writeF64Tok v = Tok.int n ∧
      PrettyV8Formatter.writeF64Tok v = Tok.int n ∧
      (∀ (ε σ : Type) (w : WriterM ε σ) (s : σ),
        CompactV8Formatter.write_f64 w s v = CompactFormatter.write_i64 w s n ∧
        PrettyV8Formatter.write_f64 w s v = PrettyFormatter.write_i64 w s n) ∧
      ('.' ∉ intDecimal n ∧ 'e' ∉ intDecimal n ∧ 'E' ∉ intDecimal n)) ∧
    (CompactV8Formatter.writeF64Tok f64NegZero = Tok.int 0 ∧
      PrettyV8Formatter.writeF64Tok f64NegZero = Tok.int 0 ∧
      intDecimal 0 = [digitChar 0]) := by
  constructor
  · intro v n hWf hfin hval hlo hhi
    have h63 := pw63_eq
    have hlo2 : i64Min ≤ n := by unfold i64Min; omega
    have hhi2 : n ≤ i64Max := by unfold i64Max; omega
    have htok := writeF64Tok_int v n hWf hfin hval hlo2 hhi2
    have hnear := nearestIntF64_fix v n hfin hval hlo2 hhi2
    have hfix := i64ToF64_fix v n hWf hval
    have heq : v.eqInt (i64ToF64 n) = true := by
      rw [hfix]
      unfold F64.eqInt
      rw [if_neg hfin]
      exact decide_eq_true hval
    refine ⟨F64.val_of_valNum hval, htok.1, htok.2, ?_, intDecimal_no_dot_exp n⟩
    intro ε σ w s
    constructor
    · simp [CompactV8Formatter.write_f64, hnear, heq]
    · simp [PrettyV8Formatter.write_f64, hnear, heq]
  · exact ⟨by decide, by decide, by decide⟩

/-- C1 witness: the binary64 value `3.0` satisfies the hypotheses and emits
the integer token `3`. -/
theorem C1_witness :
    f64Three.val = ((3 : Int) : ℚ) ∧
      CompactV8Formatter.writeF64Tok f64Three = Tok.int 3 ∧
      PrettyV8Formatter.writeF64Tok f64Three = Tok.int 3 := by
  have h := C1_integral_emits_plain_integer.1 f64Three 3 (by decide) (by decide)
    (by decide) (by decide) (by decide)
  exact ⟨h.1, h.2.1, h.2.2.1⟩

/-- C2 counterexample: the double `2^63` does not satisfy "`v = round(v)`
and `round(v)` fits in an `i64`" (its rounded value exceeds `i64::MAX`), yet
both formatters emit the integer token `9223372036854775807` rather than a
float literal — the claim as stated is false at this input. -/
theorem C2_counterexample :
    f64TwoPow63.Wf ∧ ¬ IntegralFits f64TwoPow63 ∧
      CompactV8Formatter.writeF64Tok f64TwoPow63 = Tok.int 9223372036854775807 ∧
      PrettyV8Formatter.writeF64Tok f64TwoPow63 = Tok.int 9223372036854775807 ∧
      CompactV8Formatter.writeF64Tok f64TwoPow63 ≠ Tok.float f64TwoPow63 := by
  exact ⟨by decide, by decide, by decide, by decide, by decide⟩

/-- C2 (amended): for every binary64 value `v` that does not satisfy
"`v = round(v)` and `round(v)` fits in a 64-bit signed integer", except the
single value `2^63` (where the saturating cast makes the equality test
succeed), the equality test fails and the value is passed unchanged to the
base formatter's float-rendering callback, which by the base-formatter
contract emits a standard JSON float literal that round-trips back to `v`. -/
theorem C2_nonintegral_takes_float_path (v : F64) (hWf : v.Wf)
    (hnf : ¬ IntegralFits v)
    (hne : v.valNum ≠ (pw 63 : Int) * (pw 1074 : Int)) :
    CompactV8Formatter.writeF64Tok v = Tok.float v ∧
      PrettyV8Formatter.writeF64Tok v = Tok.float v ∧
      (∀ (ε σ : Type) (w : WriterM ε σ) (s : σ),
        CompactV8Formatter.write_f64 w s v = CompactFormatter.write_f64 w s v ∧
        PrettyV8Formatter.write_f64 w s v = PrettyFormatter.write_f64 w s v) := by
  have htok := writeF64Tok_float v hnf hne
  have hcF : v.eqInt (i64ToF64 (nearestIntF64 v)) = false := by
    cases hc : v.eqInt (i64ToF64 (nearestIntF64 v)) with
    | false => rfl
    | true =>
      exfalso
      have := htok.1
      simp [CompactV8Formatter.writeF64Tok, hc] at this
  refine ⟨htok.1, htok.2, ?_⟩
  intro ε σ w s
  constructor
  · simp [CompactV8Formatter.write_f64, hcF]
  · simp [PrettyV8Formatter.write_f64, hcF]

/-- C2 witness: the double `1.5` is non-integral, and both formatters pass
it unchanged to the base float rendering. -/
theorem C2_witness :
    CompactV8Formatter.writeF64Tok f64OnePointFive = Tok.float f64OnePointFive ∧
      PrettyV8Formatter.writeF64Tok f64OnePointFive = Tok.float f64OnePointFive := by
  have h := C2_nonintegral_takes_float_path f64OnePointFive (by decide) (by decide)
    (by decide)
  exact ⟨h.1, h.2.1⟩

/-- C3: `write_f32` behaves width-independently with respect to `write_f64`:
the integral 32-bit input `3.0f32` emits the very token (`3`) the 64-bit
`3.0` emits; and every non-integral finite 32-bit input is first promoted —
exactly — to 64-bit precision and then rendered by the single 64-bit
float-rendering path of the delegated base formatter. -/
theorem C3_width_independent_f32 :
    (CompactV8Formatter.writeF32Tok f32Three = Tok.int 3 ∧
      PrettyV8Formatter.writeF32Tok f32Three = Tok.int 3 ∧
      CompactV8Formatter.writeF64Tok f64Three = Tok.int 3 ∧
      PrettyV8Formatter.writeF64Tok f64Three = Tok.int 3 ∧
      f32Three.val = ((3 : Int) : ℚ) ∧ f64Three.val = ((3 : Int) : ℚ)) ∧
    (∀ v : F32, v.Wf → v.expF ≠ 255 → v.valNum % (pw 149 : Int) ≠ 0 →
      CompactV8Formatter.writeF32Tok v = Tok.float (promoteF32 v) ∧
      PrettyV8Formatter.writeF32Tok v = Tok.float (promoteF32 v) ∧
      (promoteF32 v).val = v.val ∧ (promoteF32 v).Wf ∧ (promoteF32 v).expF ≠ 2047 ∧
      (∀ (ε σ : Type) (w : WriterM ε σ) (s : σ),
        CompactV8Formatter.write_f32 w s v = CompactFormatter.write_f64 w s (promoteF32 v) ∧
        PrettyV8Formatter.write_f32 w s v = PrettyFormatter.write_f64 w s (promoteF32 v))) := by
  constructor
  · refine ⟨by decide, by decide, by decide, by decide, ?_, ?_⟩
    · exact F32.val_of_valNum32 (n := 3) (by decide)
    · exact F64.val_of_valNum (n := 3) (by decide)
  · intro v hWf hfin hdvd
    have htok := writeF32Tok_float v hdvd
    have hex := promoteF32_exact v hWf hfin
    have hcF : v.eqInt (i64ToF32 (nearestIntF32 v)) = false := by
      cases hc : v.eqInt (i64ToF32 (nearestIntF32 v)) with
      | false => rfl
      | true =>
        exfalso
        have := htok.1
        simp [CompactV8Formatter.writeF32Tok, hc] at this
    refine ⟨htok.1, htok.2, promoteF32_val v hWf hfin, hex.1, hex.2.1, ?_⟩
    intro ε σ w s
    constructor
    · simp [CompactV8Formatter.write_f32, hcF]
    · simp [PrettyV8Formatter.write_f32, hcF]

/-- C3 witness: the binary32 value `0.5` is non-integral; it is promoted to
the binary64 `0.5` and rendered by the 64-bit float path. -/
theorem C3_witness :
    CompactV8Formatter.writeF32Tok f32Half = Tok.float (promoteF32 f32Half) ∧
      (promoteF32 f32Half).val = f32Half.val := by
  have h := C3_width_independent_f32.2 f32Half (by decide) (by decide) (by decide)
  exact ⟨h.1, h.2.2.1⟩

/-- C8: non-finite inputs (NaN, ±infinity — exponent field all ones) get no
special handling: the equality test is false (IEEE comparison with a
non-finite left operand), the integer branch is never taken, and the output
is exactly the delegated base formatter's float-rendering callback applied
to that non-finite input (for `write_f32`, to its 64-bit promotion). -/
theorem C8_nonfinite_passthrough :
    (∀ v : F64, v.expF = 2047 →
      CompactV8Formatter.writeF64Tok v = Tok.float v ∧
      PrettyV8Formatter.writeF64Tok v = Tok.float v ∧
      (∀ (ε σ : Type) (w : WriterM ε σ) (s : σ),
        CompactV8Formatter.write_f64 w s v = CompactFormatter.write_f64 w s v ∧
        PrettyV8Formatter.write_f64 w s v = PrettyFormatter.write_f64 w s v)) ∧
    (∀ u : F32, u.expF = 255 →
      CompactV8Formatter.writeF32Tok u = Tok.float (promoteF32 u) ∧
      PrettyV8Formatter.writeF32Tok u = Tok.float (promoteF32 u) ∧
      (promoteF32 u).expF = 2047 ∧
      (∀ (ε σ : Type) (w : WriterM ε σ) (s : σ),
        CompactV8Formatter.write_f32 w s u = CompactFormatter.write_f64 w s (promoteF32 u) ∧
        PrettyV8Formatter.write_f32 w s u = PrettyFormatter.write_f64 w s (promoteF32 u))) := by
  constructor
  · intro v hnf
    have hcF : v.eqInt (i64ToF64 (nearestIntF64 v)) = false := by
      unfold F64.eqInt
      rw [if_pos hnf]
    refine ⟨?_, ?_, ?_⟩
    · simp [CompactV8Formatter.writeF64Tok, hcF]
    · simp [PrettyV8Formatter.writeF64Tok, hcF]
    · intro ε σ w s
      constructor
      · simp [CompactV8Formatter.write_f64, hcF]
      · simp [PrettyV8Formatter.write_f64, hcF]
  · intro u hnf
    have hcF : u.eqInt (i64ToF32 (nearestIntF32 u)) = false := by
      unfold F32.eqInt
      rw [if_pos hnf]
    have hpr : (promoteF32 u).expF = 2047 := by
      unfold promoteF32
      rw [if_pos hnf]
    refine ⟨?_, ?_, hpr, ?_⟩
    · simp [CompactV8Formatter.writeF32Tok, hcF]
    · simp [PrettyV8Formatter.writeF32Tok, hcF]
    · intro ε σ w s
      constructor
      · simp [CompactV8Formatter.write_f32, hcF]
      · simp [PrettyV8Formatter.write_f32, hcF]

/-- C8 witness: a NaN and positive infinity take the float path unchanged. -/
theorem C8_witness :
    CompactV8Formatter.writeF64Tok f64NaN = Tok.float f64NaN ∧
      CompactV8Formatter.writeF64Tok f64Inf = Tok.float f64Inf ∧
      CompactV8Formatter.writeF32Tok ⟨false, 255, 0⟩ =
        Tok.float (promoteF32 ⟨false, 255, 0⟩) := by
  exact ⟨(C8_nonfinite_passthrough.1 f64NaN rfl).1,
    (C8_nonfinite_passthrough.1 f64Inf rfl).1,
    (C8_nonfinite_passthrough.2 ⟨false, 255, 0⟩ rfl).1⟩

/-- C10: at `v = 2^63` (the binary64 value `9223372036854775808.0`) the
rounding cast saturates to `i64::MAX`; casting `i64::MAX` back to binary64
rounds up to exactly `2^63`, so the equality test succeeds and `write_f64`
emits the integer token `9223372036854775807` — numerically unequal to `v`;
and this is the only binary64 input for which the integer branch emits a
token numerically unequal to the input. -/
theorem C10_saturation_anomaly :
    nearestIntF64 f64TwoPow63 = 9223372036854775807 ∧
    i64ToF64 9223372036854775807 = 9223372036854775808 ∧
    f64TwoPow63.val = 2 ^ 63 ∧
    CompactV8Formatter.writeF64Tok f64TwoPow63 = Tok.int 9223372036854775807 ∧
    PrettyV8Formatter.writeF64Tok f64TwoPow63 = Tok.int 9223372036854775807 ∧
    ((9223372036854775807 : Int) : ℚ) ≠ f64TwoPow63.val ∧
    (∀ (v : F64) (n : Int), CompactV8Formatter.writeF64Tok v = Tok.int n →
      n * (pw 1074 : Int) ≠ v.valNum →
      v.valNum = (pw 63 : Int) * (pw 1074 : Int) ∧ v.val = 2 ^ 63) := by
  have hvala : f64TwoPow63.val = 2 ^ 63 := by
    have h := F64.val_of_valNum (v := f64TwoPow63) (n := (pw 63 : Int)) (by decide)
    rw [h, pw_eq]
    push_cast
    ring
  refine ⟨by decide, by decide, hvala, by decide, by decide, ?_, ?_⟩
  · rw [hvala]
    norm_num
  · intro v n htok hne
    have hv := intBranch_unequal_unique v n htok hne
    refine ⟨hv, ?_⟩
    have h := F64.val_of_valNum (v := v) (n := (pw 63 : Int)) hv
    rw [h, pw_eq]
    push_cast
    ring

/-- C10 witness: the uniqueness direction applied at the concrete anomalous
input `2^63` itself. -/
theorem C10_witness :
    f64TwoPow63.valNum = (pw 63 : Int) * (pw 1074 : Int) ∧ f64TwoPow63.val = 2 ^ 63 :=
  C10_saturation_anomaly.2.2.2.2.2.2 f64TwoPow63 9223372036854775807 (by decide)
    (by decide)

/-- C4: `PrettyV8Formatter` forwards every structural callback of the
`Formatter` capability (begin/end array, begin/end array value, begin/end
object, begin/end object key, begin/end object value) unchanged to its owned
inner indent-aware `PrettyFormatter`: for each callback the emitted bytes
equal the inner formatter's and the resulting wrapper state is exactly the
wrapped resulting inner state — no structural logic of its own. -/
theorem C4_pretty_forwards_structural_callbacks :
    ∀ (f : PrettyV8Formatter) (first : Bool),
      ((f.begin_array).2 = (f.inner.begin_array).2 ∧
        (f.begin_array).1.inner = (f.inner.begin_array).1) ∧
      ((f.end_array).2 = (f.inner.end_array).2 ∧
        (f.end_array).1.inner = (f.inner.end_array).1) ∧
      ((f.begin_array_value first).2 = (f.inner.begin_array_value first).2 ∧
        (f.begin_array_value first).1.inner = (f.inner.begin_array_value first).1) ∧
      ((f.end_array_value).2 = (f.inner.end_array_value).2 ∧
        (f.end_array_value).1.inner = (f.inner.end_array_value).1) ∧
      ((f.begin_object).2 = (f.inner.begin_object).2 ∧
        (f.begin_object).1.inner = (f.inner.begin_object).1) ∧
      ((f.end_object).2 = (f.inner.end_object).2 ∧
        (f.end_object).1.inner = (f.inner.end_object).1) ∧
      ((f.begin_object_key first).2 = (f.inner.begin_object_key first).2 ∧
        (f.begin_object_key first).1.inner = (f.inner.begin_object_key first).1) ∧
      ((f.end_object_key).2 = (f.inner.end_object_key).2 ∧
        (f.end_object_key).1.inner = (f.inner.end_object_key).1) ∧
      ((f.begin_object_value).2 = (f.inner.begin_object_value).2 ∧
        (f.begin_object_value).1.inner = (f.inner.begin_object_value).1) ∧
      ((f.end_object_value).2 = (f.inner.end_object_value).2 ∧
        (f.end_object_value).1.inner = (f.inner.end_object_value).1) := by
  intro f first
  exact ⟨⟨rfl, rfl⟩, ⟨rfl, rfl⟩, ⟨rfl, rfl⟩, ⟨rfl, rfl⟩, ⟨rfl, rfl⟩, ⟨rfl, rfl⟩,
    ⟨rfl, rfl⟩, ⟨rfl, rfl⟩, ⟨rfl, rfl⟩, ⟨rfl, rfl⟩⟩

/-- C4 witness: the forwarding equalities at the freshly constructed
formatter. -/
theorem C4_witness :
    ((PrettyV8Formatter.new.begin_array).2 =
      (PrettyV8Formatter.new.inner.begin_array).2) ∧
    ((PrettyV8Formatter.new.begin_object_key true).2 =
      (PrettyV8Formatter.new.inner.begin_object_key true).2) :=
  ⟨(C4_pretty_forwards_structural_callbacks PrettyV8Formatter.new true).1.1,
    (C4_pretty_forwards_structural_callbacks PrettyV8Formatter.new true).2.2.2.2.2.2.1.1⟩

/-- C5: for the value `{"a": 1.5, "b": [2, 3.0]}`, compact serialization
yields exactly the bytes of `{"a":1.5,"b":[2,3]}`, and pretty serialization
with the default two-space indent yields exactly the spec's multi-line
output — `1.5` stays a float token, `2` stays an integer token, and `3.0`
folds to the integer token `3`. -/
theorem C5_sample_exact_bytes :
    to_vec sampleValue =
      .ok [123, 34, 97, 34, 58, 49, 46, 53, 44, 34, 98, 34, 58, 91, 50, 44, 51, 93,
        125] ∧
    to_vec_pretty sampleValue =
      .ok [123, 10, 32, 32, 34, 97, 34, 58, 32, 49, 46, 53, 44, 10, 32, 32, 34, 98, 34,
        58, 32, 91, 10, 32, 32, 32, 32, 50, 44, 10, 32, 32, 32, 32, 51, 10, 32, 32, 93,
        10, 125] := by
  exact ⟨by decide, by decide⟩

/-! ## C6: idempotence of compact serialization -/

theorem sizeV_pos (v : JValue) : 1 ≤ sizeV v := by
  cases v <;> simp [sizeV]

theorem sizeA_pos (xs : JArr) : 1 ≤ sizeA xs := by
  cases xs <;> simp [sizeA]

theorem sizeO_pos (kvs : JObj) : 1 ≤ sizeO kvs := by
  cases kvs <;> simp [sizeO]

/-- The decision rule emits either an integer token or the float token
carrying the value unchanged. -/
theorem writeF64Tok_shape (v : F64) :
    (∃ n, CompactV8Formatter.writeF64Tok v = Tok.int n) ∨
      CompactV8Formatter.writeF64Tok v = Tok.float v := by
  by_cases h : v.eqInt (i64ToF64 (nearestIntF64 v)) = true
  · exact Or.inl ⟨nearestIntF64 v, by simp [CompactV8Formatter.writeF64Tok, h]⟩
  · exact Or.inr (by simp [CompactV8Formatter.writeF64Tok, h])

/-- Every token a value's serialization starts with opens a value; it is
never a closing bracket, closing brace, comma or colon. -/
theorem serVTok_head (v : JValue) (rest : List Tok) :
    (serVTok v ++ rest).head? ≠ some Tok.rbrack ∧
      (serVTok v ++ rest).head? ≠ some Tok.rbrace := by
  cases v with
  | null => simp [serVTok]
  | bool b => simp [serVTok]
  | int n => simp [serVTok]
  | float u =>
    by_cases hf : u.expF = 2047
    · simp [serVTok, hf]
    · rcases writeF64Tok_shape u with ⟨n, hn⟩ | hfl
      · simp [serVTok, hf, hn]
      · simp [serVTok, hf, hfl]
  | str s => simp [serVTok]
  | arr xs => simp [serVTok]
  | obj kvs => simp [serVTok]

mutual
theorem serVTok_norm (v : JValue) : serVTok (normV v) = serVTok v := by
  cases v with
  | null => rfl
  | bool b => rfl
  | int n => rfl
  | float u =>
    by_cases hf : u.expF = 2047
    · simp [normV, hf, serVTok]
    · rcases writeF64Tok_shape u with ⟨n, hn⟩ | hfl
      · simp [normV, hf, hn, serVTok]
      · simp [normV, hf, hfl, serVTok]
  | str s => rfl
  | arr xs =>
    simp only [normV, serVTok]
    rw [serArrTok_norm xs true]
  | obj kvs =>
    simp only [normV, serVTok]
    rw [serObjTok_norm kvs true]
termination_by sizeV v
decreasing_by all_goals (simp [sizeV, sizeA, sizeO]; try omega)

theorem serArrTok_norm (xs : JArr) (first : Bool) :
    serArrTok (normA xs) first = serArrTok xs first := by
  cases xs with
  | nil => rfl
  | cons v tl =>
    simp only [normA, serArrTok]
    rw [serVTok_norm v, serArrTok_norm tl false]
termination_by sizeA xs
decreasing_by all_goals (simp [sizeV, sizeA, sizeO]; try omega)

theorem serObjTok_norm (kvs : JObj) (first : Bool) :
    serObjTok (normO kvs) first = serObjTok kvs first := by
  cases kvs with
  | nil => rfl
  | cons k v tl =>
    simp only [normO, serObjTok]
    rw [serVTok_norm v, serObjTok_norm tl false]
termination_by sizeO kvs
decreasing_by all_goals (simp [sizeV, sizeA, sizeO]; try omega)
end

/-- The external parser inverts the token-level compact serialization,
returning the normalized value and re-exposing any remaining tokens. -/
theorem parse_ser_main : ∀ f : Nat,
    (∀ (v : JValue) (rest : List Tok), sizeV v ≤ f →
      parseV f (serVTok v ++ rest) = some (normV v, rest)) ∧
    (∀ (v : JValue) (tl : JArr) (rest : List Tok), sizeV v + sizeA tl ≤ f →
      parseArrItems f (serVTok v ++ (serArrTok tl false ++ (Tok.rbrack :: rest))) =
        some (JArr.cons (normV v) (normA tl), rest)) ∧
    (∀ (k : List Char) (v : JValue) (tl : JObj) (rest : List Tok),
      sizeV v + sizeO tl + 1 ≤ f →
      parseObjItems f
          (Tok.str k :: Tok.colon :: (serVTok v ++ (serObjTok tl false ++ (Tok.rbrace :: rest)))) =
        some (JObj.cons k (normV v) (normO tl), rest)) := by
  intro f
  induction f with
  | zero =>
    refine ⟨?_, ?_, ?_⟩
    · intro v rest h
      exact absurd h (by have := sizeV_pos v; omega)
    · intro v tl rest h
      exact absurd h (by have := sizeV_pos v; have := sizeA_pos tl; omega)
    · intro k v tl rest h
      exact absurd h (by have := sizeV_pos v; have := sizeO_pos tl; omega)
  | succ f ih =>
    obtain ⟨ihv, iha, iho⟩ := ih
    have hstepV : ∀ (v : JValue) (rest : List Tok), sizeV v ≤ f + 1 →
        parseV (f + 1) (serVTok v ++ rest) = some (normV v, rest) := by
      intro v rest h
      cases v with
      | null => simp [serVTok, parseV, normV]
      | bool b => simp [serVTok, parseV, normV]
      | int n => simp [serVTok, parseV, normV]
      | float u =>
        by_cases hf : u.expF = 2047
        · have hser : serVTok (JValue.float u) = [Tok.null] := by simp [serVTok, hf]
          have hnrm : normV (JValue.float u) = JValue.null := by simp [normV, hf]
          rw [hser, hnrm]
          simp [parseV]
        · rcases writeF64Tok_shape u with ⟨n, hn⟩ | hfl
          · have hser : serVTok (JValue.float u) = [Tok.int n] := by simp [serVTok, hf, hn]
            have hnrm : normV (JValue.float u) = JValue.int n := by simp [normV, hf, hn]
            rw [hser, hnrm]
            simp [parseV]
          · have hser : serVTok (JValue.float u) = [Tok.float u] := by simp [serVTok, hf, hfl]
            have hnrm : normV (JValue.float u) = JValue.float u := by simp [normV, hf, hfl]
            rw [hser, hnrm]
            simp [parseV]
      | str s => simp [serVTok, parseV, normV]
      | arr xs =>
        cases xs with
        | nil => simp [serVTok, serArrTok, parseV, normV, normA]
        | cons v1 tl =>
          have hsz : sizeV v1 + sizeA tl ≤ f := by
            have := sizeV_pos v1
            simp [sizeV, sizeA] at h
            omega
          have hhd := serVTok_head v1 (serArrTok tl false ++ (Tok.rbrack :: rest))
          have harr := iha v1 tl rest hsz
          simp only [serVTok, serArrTok, if_true, List.nil_append, List.cons_append,
            List.append_assoc]
          simp only [parseV]
          rw [if_neg (by simpa using hhd.1)]
          rw [harr]
          simp [normV, normA]
      | obj kvs =>
        cases kvs with
        | nil => simp [serVTok, serObjTok, parseV, normV, normO]
        | cons k v1 tl =>
          have hsz : sizeV v1 + sizeO tl + 1 ≤ f := by
            have := sizeV_pos v1
            simp [sizeV, sizeO] at h
            omega
          have hobj := iho k v1 tl rest hsz
          simp only [serVTok, serObjTok, if_true, List.nil_append, List.cons_append,
            List.append_assoc]
          simp only [parseV]
          rw [if_neg (by simp)]
          rw [hobj]
          simp [normV, normO]
    refine ⟨hstepV, ?_, ?_⟩
    · intro v tl rest h
      have hv : sizeV v ≤ f := by have := sizeA_pos tl; omega
      have hpv := ihv v (serArrTok tl false ++ (Tok.rbrack :: rest)) hv
      cases tl with
      | nil =>
        simp only [parseArrItems]
        rw [hpv]
        simp [serArrTok, normA]
      | cons v2 tl2 =>
        have hsz2 : sizeV v2 + sizeA tl2 ≤ f := by
          have := sizeV_pos v
          simp [sizeA] at h
          omega
        have harr2 := iha v2 tl2 rest hsz2
        have hser : serArrTok (JArr.cons v2 tl2) false =
            Tok.comma :: (serVTok v2 ++ serArrTok tl2 false) := by
          simp [serArrTok]
        simp only [parseArrItems]
        rw [hpv, hser]
        simp only [List.cons_append, List.append_assoc]
        rw [harr2]
        simp [normA]
    · intro k v tl rest h
      have hv : sizeV v ≤ f := by have := sizeO_pos tl; omega
      have hpv := ihv v (serObjTok tl false ++ (Tok.rbrace :: rest)) hv
      cases tl with
      | nil =>
        simp only [parseObjItems]
        rw [hpv]
        simp [serObjTok, normO]
      | cons k2 v2 tl2 =>
        have hsz2 : sizeV v2 + sizeO tl2 + 1 ≤ f := by
          have := sizeV_pos v
          simp [sizeO] at h
          omega
        have hobj2 := iho k2 v2 tl2 rest hsz2
        have hser : serObjTok (JObj.cons k2 v2 tl2) false =
            Tok.comma :: (Tok.str k2 :: Tok.colon :: serVTok v2 ++ serObjTok tl2 false) := by
          simp [serObjTok]
        simp only [parseObjItems]
        rw [hpv, hser]
        simp only [List.cons_append, List.append_assoc]
        rw [hobj2]
        simp [normO]

/-- C6: idempotence of compact serialization at the token level: parsing the
compact output of any value yields a value (the normalization: integral
finite floats come back as integers, non-finite floats as null) whose
re-serialization is token-identical — hence byte-identical — to the first
output. -/
theorem C6_compact_serialization_idempotent (v : JValue) :
    parseV (sizeV v) (serVTok v) = some (normV v, []) ∧
      serVTok (normV v) = serVTok v := by
  constructor
  · have h := (parse_ser_main (sizeV v)).1 v [] le_rfl
    simpa using h
  · exact serVTok_norm v

/-- C6 witness: the round trip at the spec's example value. -/
theorem C6_witness :
    parseV (sizeV sampleValue) (serVTok sampleValue) = some (normV sampleValue, []) ∧
      serVTok (normV sampleValue) = serVTok sampleValue :=
  C6_compact_serialization_idempotent sampleValue

/-! ## C7: UTF-8 and the unchecked byte-to-string reinterpretation -/

theorem utf8Encode_append (a b : List Char) :
    utf8Encode (a ++ b) = utf8Encode a ++ utf8Encode b := by
  induction a with
  | nil => rfl
  | cons c a ih => simp [utf8Encode, ih]

/-- Decoding the UTF-8 encoding of any character sequence — with the
validation-free decoder — recovers the sequence exactly: the encoder only
produces well-formed UTF-8, which is what makes the zero-validation
reinterpretation safe. -/
theorem utf8_decode_encode (cs : List Char) :
    utf8DecodeUnchecked (utf8Encode cs) = cs := by
  induction cs with
  | nil =>
    show utf8DecodeUnchecked [] = []
    simp only [utf8DecodeUnchecked]
  | cons c cs ih =>
    show utf8DecodeUnchecked (utf8EncodeChar c ++ utf8Encode cs) = c :: cs
    unfold utf8EncodeChar
    by_cases h1 : c.toNat < 128
    · rw [if_pos h1]
      simp only [List.cons_append, List.nil_append, utf8DecodeUnchecked]
      rw [if_pos h1, Char.ofNat_toNat, ih]
    · rw [if_neg h1]
      push_neg at h1
      by_cases h2 : c.toNat < 2048
      · rw [if_pos h2]
        simp only [List.cons_append, List.nil_append, utf8DecodeUnchecked]
        rw [if_neg (by omega), if_pos (by omega)]
        simp only [List.headD, List.drop]
        have harith : (192 + c.toNat / 64 - 192) * 64 + (128 + c.toNat % 64 - 128) =
            c.toNat := by omega
        rw [harith, Char.ofNat_toNat, ih]
      · rw [if_neg h2]
        push_neg at h2
        by_cases h3 : c.toNat < 65536
        · rw [if_pos h3]
          simp only [List.cons_append, List.nil_append, utf8DecodeUnchecked]
          rw [if_neg (by omega), if_neg (by omega), if_pos (by omega)]
          simp only [List.headD, List.drop]
          have harith : (224 + c.toNat / 4096 - 224) * 4096 +
              (128 + c.toNat / 64 % 64 - 128) * 64 + (128 + c.toNat % 64 - 128) =
              c.toNat := by omega
          rw [harith, Char.ofNat_toNat, ih]
        · rw [if_neg h3]
          push_neg at h3
          simp only [List.cons_append, List.nil_append, utf8DecodeUnchecked]
          rw [if_neg (by omega), if_neg (by omega), if_neg (by omega)]
          simp only [List.headD, List.drop]
          have harith : (240 + c.toNat / 262144 - 240) * 262144 +
              (128 + c.toNat / 4096 % 64 - 128) * 4096 +
              (128 + c.toNat / 64 % 64 - 128) * 64 + (128 + c.toNat % 64 - 128) =
              c.toNat := by omega
          rw [harith, Char.ofNat_toNat, ih]

/-- The byte chunk the `CompactV8Formatter`/`PrettyV8Formatter` `write_f64`
hands to the sink in a single delegated write. -/
def v8F64Chunk (value : F64) : List Char :=
  let nearest_int : Int := nearestIntF64 value
  if value.eqInt (i64ToF64 nearest_int) then intDecimal nearest_int
  else baseRenderF64 value

/-- The byte chunk the `write_f32` callbacks hand to the sink. -/
def v8F32Chunk (value : F32) : List Char :=
  let nearest_int : Int := nearestIntF32 value
  if value.eqInt (i64ToF32 nearest_int) then intDecimal nearest_int
  else baseRenderF64 (promoteF32 value)

section ChunkLemmas

variable {ε σ : Type}

theorem compactV8_write_f64_chunk (w : WriterM ε σ) (s : σ) (value : F64) :
    CompactV8Formatter.write_f64 w s value = w.write s (utf8Encode (v8F64Chunk value)) := by
  unfold CompactV8Formatter.write_f64 v8F64Chunk CompactFormatter.write_i64
    CompactFormatter.write_f64
  by_cases h : value.eqInt (i64ToF64 (nearestIntF64 value)) = true <;> simp [h]

theorem prettyV8_write_f64_chunk (w : WriterM ε σ) (s : σ) (value : F64) :
    PrettyV8Formatter.write_f64 w s value = w.write s (utf8Encode (v8F64Chunk value)) := by
  unfold PrettyV8Formatter.write_f64 v8F64Chunk PrettyFormatter.write_i64
    PrettyFormatter.write_f64
  by_cases h : value.eqInt (i64ToF64 (nearestIntF64 value)) = true <;> simp [h]

theorem compactV8_write_f32_chunk (w : WriterM ε σ) (s : σ) (value : F32) :
    CompactV8Formatter.write_f32 w s value = w.write s (utf8Encode (v8F32Chunk value)) := by
  unfold CompactV8Formatter.write_f32 v8F32Chunk CompactFormatter.write_i64
    CompactFormatter.write_f64
  by_cases h : value.eqInt (i64ToF32 (nearestIntF32 value)) = true <;> simp [h]

theorem prettyV8_write_f32_chunk (w : WriterM ε σ) (s : σ) (value : F32) :
    PrettyV8Formatter.write_f32 w s value = w.write s (utf8Encode (v8F32Chunk value)) := by
  unfold PrettyV8Formatter.write_f32 v8F32Chunk PrettyFormatter.write_i64
    PrettyFormatter.write_f64
  by_cases h : value.eqInt (i64ToF32 (nearestIntF32 value)) = true <;> simp [h]

end ChunkLemmas

/-! Pure character-level renderings of the two pipelines, used to exhibit the
bytes of `to_vec` / `to_vec_pretty` as the UTF-8 encoding of a character
sequence. -/

mutual
/-- Characters the compact pipeline emits for a value. -/
def renderCV : JValue → List Char
  | .null => nullChars
  | .bool b => boolChars b
  | .int n => intDecimal n
  | .float v => if v.expF = 2047 then nullChars else v8F64Chunk v
  | .str cs => strChars cs
  | .arr xs => ['['] ++ (renderCA xs true ++ [']'])
  | .obj kvs => [Char.ofNat 123] ++ (renderCO kvs true ++ [Char.ofNat 125])

/-- Characters the compact pipeline emits for array elements. -/
def renderCA : JArr → Bool → List Char
  | .nil, _ => []
  | .cons v tl, first => (if first then [] else [',']) ++ (renderCV v ++ renderCA tl false)

/-- Characters the compact pipeline emits for object members. -/
def renderCO : JObj → Bool → List Char
  | .nil, _ => []
  | .cons k v tl, first =>
      (if first then [] else [',']) ++
        (strChars k ++ ([':'] ++ (renderCV v ++ renderCO tl false)))
end

mutual
/-- Characters and final state of the pretty pipeline for a value. -/
def renderPV : PrettyV8Formatter → JValue → List Char × PrettyV8Formatter
  | g, .null => (nullChars, g)
  | g, .bool b => (boolChars b, g)
  | g, .int n => (intDecimal n, g)
  | g, .float v => if v.expF = 2047 then (nullChars, g) else (v8F64Chunk v, g)
  | g, .str cs => (strChars cs, g)
  | g, .arr xs =>
    let a1 := g.begin_array
    let a2 := renderPA a1.1 xs true
    let a3 := a2.2.end_array
    (a1.2 ++ (a2.1 ++ a3.2), a3.1)
  | g, .obj kvs =>
    let a1 := g.begin_object
    let a2 := renderPO a1.1 kvs true
    let a3 := a2.2.end_object
    (a1.2 ++ (a2.1 ++ a3.2), a3.1)

/-- Characters and final state of the pretty pipeline for array elements. -/
def renderPA : PrettyV8Formatter → JArr → Bool → List Char × PrettyV8Formatter
  | g, .nil, _ => ([], g)
  | g, .cons v tl, first =>
    let a1 := g.begin_array_value first
    let a2 := renderPV a1.1 v
    let a3 := a2.2.end_array_value
    let a4 := renderPA a3.1 tl false
    (a1.2 ++ (a2.1 ++ (a3.2 ++ a4.1)), a4.2)

/-- Characters and final state of the pretty pipeline for object members. -/
def renderPO : PrettyV8Formatter → JObj → Bool → List Char × PrettyV8Formatter
  | g, .nil, _ => ([], g)
  | g, .cons k v tl, first =>
    let a1 := g.begin_object_key first
    let a2 := a1.1.end_object_key
    let a3 := a2.1.begin_object_value
    let a4 := renderPV a3.1 v
    let a5 := a4.2.end_object_value
    let a6 := renderPO a5.1 tl false
    (a1.2 ++ (strChars k ++ (a2.2 ++ (a3.2 ++ (a4.1 ++ (a5.2 ++ a6.1))))), a6.2)
end

/-- Binding a successful `Except` computation. -/
theorem exBind_ok {ε α β : Type} (a : α) (f : α → Except ε β) :
    (Except.ok a : Except ε α) >>= f = f a := rfl

/-! The `CompactV8Fmt` callbacks evaluated over the infallible byte-vector
sink. -/

theorem CFv_write_null (u : Unit) (s : List Nat) :
    (CompactV8Fmt vecWriter).write_null u s =
      .ok ((), s ++ utf8Encode nullChars) := rfl

theorem CFv_write_bool (u : Unit) (s : List Nat) (b : Bool) :
    (CompactV8Fmt vecWriter).write_bool u s b =
      .ok ((), s ++ utf8Encode (boolChars b)) := rfl

theorem CFv_write_i64 (u : Unit) (s : List Nat) (n : Int) :
    (CompactV8Fmt vecWriter).write_i64 u s n =
      .ok ((), s ++ utf8Encode (intDecimal n)) := rfl

theorem CFv_write_f64 (u : Unit) (s : List Nat) (v : F64) :
    (CompactV8Fmt vecWriter).write_f64 u s v =
      .ok ((), s ++ utf8Encode (v8F64Chunk v)) := by
  show (CompactV8Formatter.write_f64 vecWriter s v).map (fun x => ((), x)) = _
  rw [compactV8_write_f64_chunk]
  rfl

theorem CFv_write_str (u : Unit) (s : List Nat) (cs : List Char) :
    (CompactV8Fmt vecWriter).write_str u s cs =
      .ok ((), s ++ utf8Encode (strChars cs)) := rfl

theorem CFv_begin_array (u : Unit) (s : List Nat) :
    (CompactV8Fmt vecWriter).begin_array u s =
      .ok ((), s ++ utf8Encode ['[']) := rfl

theorem CFv_end_array (u : Unit) (s : List Nat) :
    (CompactV8Fmt vecWriter).end_array u s =
      .ok ((), s ++ utf8Encode [']']) := rfl

theorem CFv_begin_array_value (u : Unit) (s : List Nat) (first : Bool) :
    (CompactV8Fmt vecWriter).begin_array_value u s first =
      .ok ((), s ++ utf8Encode (if first then [] else [','])) := rfl

theorem CFv_end_array_value (u : Unit) (s : List Nat) :
    (CompactV8Fmt vecWriter).end_array_value u s = .ok ((), s ++ []) := rfl

theorem CFv_begin_object (u : Unit) (s : List Nat) :
    (CompactV8Fmt vecWriter).begin_object u s =
      .ok ((), s ++ utf8Encode [Char.ofNat 123]) := rfl

theorem CFv_end_object (u : Unit) (s : List Nat) :
    (CompactV8Fmt vecWriter).end_object u s =
      .ok ((), s ++ utf8Encode [Char.ofNat 125]) := rfl

theorem CFv_begin_object_key (u : Unit) (s : List Nat) (first : Bool) :
    (CompactV8Fmt vecWriter).begin_object_key u s first =
      .ok ((), s ++ utf8Encode (if first then [] else [','])) := rfl

theorem CFv_end_object_key (u : Unit) (s : List Nat) :
    (CompactV8Fmt vecWriter).end_object_key u s = .ok ((), s ++ []) := rfl

theorem CFv_begin_object_value (u : Unit) (s : List Nat) :
    (CompactV8Fmt vecWriter).begin_object_value u s =
      .ok ((), s ++ utf8Encode [':']) := rfl

theorem CFv_end_object_value (u : Unit) (s : List Nat) :
    (CompactV8Fmt vecWriter).end_object_value u s = .ok ((), s ++ []) := rfl

/-! The `PrettyV8Fmt` callbacks evaluated over the byte-vector sink. -/

theorem PFv_write_null (f : PrettyV8Formatter) (s : List Nat) :
    (PrettyV8Fmt vecWriter).write_null f s =
      .ok (f, s ++ utf8Encode nullChars) := rfl

theorem PFv_write_bool (f : PrettyV8Formatter) (s : List Nat) (b : Bool) :
    (PrettyV8Fmt vecWriter).write_bool f s b =
      .ok (f, s ++ utf8Encode (boolChars b)) := rfl

theorem PFv_write_i64 (f : PrettyV8Formatter) (s : List Nat) (n : Int) :
    (PrettyV8Fmt vecWriter).write_i64 f s n =
      .ok (f, s ++ utf8Encode (intDecimal n)) := rfl

theorem PFv_write_f64 (f : PrettyV8Formatter) (s : List Nat) (v : F64) :
    (PrettyV8Fmt vecWriter).write_f64 f s v =
      .ok (f, s ++ utf8Encode (v8F64Chunk v)) := by
  show (PrettyV8Formatter.write_f64 vecWriter s v).map (fun x => (f, x)) = _
  rw [prettyV8_write_f64_chunk]
  rfl

theorem PFv_write_str (f : PrettyV8Formatter) (s : List Nat) (cs : List Char) :
    (PrettyV8Fmt vecWriter).write_str f s cs =
      .ok (f, s ++ utf8Encode (strChars cs)) := rfl

theorem PFv_begin_array (f : PrettyV8Formatter) (s : List Nat) :
    (PrettyV8Fmt vecWriter).begin_array f s =
      .ok ((f.begin_array).1, s ++ utf8Encode (f.begin_array).2) := rfl

theorem PFv_end_array (f : PrettyV8Formatter) (s : List Nat) :
    (PrettyV8Fmt vecWriter).end_array f s =
      .ok ((f.end_array).1, s ++ utf8Encode (f.end_array).2) := rfl

theorem PFv_begin_array_value (f : PrettyV8Formatter) (s : List Nat) (first : Bool) :
    (PrettyV8Fmt vecWriter).begin_array_value f s first =
      .ok ((f.begin_array_value first).1,
        s ++ utf8Encode (f.begin_array_value first).2) := rfl

theorem PFv_end_array_value (f : PrettyV8Formatter) (s : List Nat) :
    (PrettyV8Fmt vecWriter).end_array_value f s =
      .ok ((f.end_array_value).1, s ++ utf8Encode (f.end_array_value).2) := rfl

theorem PFv_begin_object (f : PrettyV8Formatter) (s : List Nat) :
    (PrettyV8Fmt vecWriter).begin_object f s =
      .ok ((f.begin_object).1, s ++ utf8Encode (f.begin_object).2) := rfl

theorem PFv_end_object (f : PrettyV8Formatter) (s : List Nat) :
    (PrettyV8Fmt vecWriter).end_object f s =
      .ok ((f.end_object).1, s ++ utf8Encode (f.end_object).2) := rfl

theorem PFv_begin_object_key (f : PrettyV8Formatter) (s : List Nat) (first : Bool) :
    (PrettyV8Fmt vecWriter).begin_object_key f s first =
      .ok ((f.begin_object_key first).1,
        s ++ utf8Encode (f.begin_object_key first).2) := rfl

theorem PFv_end_object_key (f : PrettyV8Formatter) (s : List Nat) :
    (PrettyV8Fmt vecWriter).end_object_key f s =
      .ok ((f.end_object_key).1, s ++ utf8Encode (f.end_object_key).2) := rfl

theorem PFv_begin_object_value (f : PrettyV8Formatter) (s : List Nat) :
    (PrettyV8Fmt vecWriter).begin_object_value f s =
      .ok ((f.begin_object_value).1, s ++ utf8Encode (f.begin_object_value).2) := rfl

theorem PFv_end_object_value (f : PrettyV8Formatter) (s : List Nat) :
    (PrettyV8Fmt vecWriter).end_object_value f s =
      .ok ((f.end_object_value).1, s ++ utf8Encode (f.end_object_value).2) := rfl

mutual
/-- Running the compact pipeline over the infallible byte-vector sink
appends exactly the UTF-8 encoding of the pure compact rendering. -/
theorem serGen_compact_run (v : JValue) : ∀ s : List Nat,
    serGen (CompactV8Fmt vecWriter) v ((), s) =
      .ok ((), s ++ utf8Encode (renderCV v)) := by
  intro s
  cases v with
  | null => simp [serGen, CFv_write_null, renderCV]
  | bool b => simp [serGen, CFv_write_bool, renderCV]
  | int n => simp [serGen, CFv_write_i64, renderCV]
  | float u =>
    by_cases hf : u.expF = 2047
    · simp [serGen, hf, CFv_write_null, renderCV]
    · simp [serGen, hf, CFv_write_f64, renderCV]
  | str cs => simp [serGen, CFv_write_str, renderCV]
  | arr xs =>
    simp only [serGen, CFv_begin_array, exBind_ok]
    rw [serArr_compact_run xs]
    simp [exBind_ok, CFv_end_array, renderCV, utf8Encode, utf8Encode_append, List.append_assoc]
  | obj kvs =>
    simp only [serGen, CFv_begin_object, exBind_ok]
    rw [serObj_compact_run kvs]
    simp [exBind_ok, CFv_end_object, renderCV, utf8Encode, utf8Encode_append, List.append_assoc]
termination_by sizeV v
decreasing_by all_goals (simp [sizeV, sizeA, sizeO]; try omega)

/-- Array-element loop of the compact pipeline over the byte-vector sink. -/
theorem serArr_compact_run (xs : JArr) : ∀ (first : Bool) (s : List Nat),
    serArrGen (CompactV8Fmt vecWriter) xs first ((), s) =
      .ok ((), s ++ utf8Encode (renderCA xs first)) := by
  intro first s
  cases xs with
  | nil => simp [serArrGen, renderCA, utf8Encode, pure, Except.pure]
  | cons v tl =>
    simp only [serArrGen, CFv_begin_array_value, exBind_ok]
    rw [serGen_compact_run v]
    simp only [exBind_ok, CFv_end_array_value, List.append_nil]
    rw [serArr_compact_run tl]
    simp [renderCA, utf8Encode, utf8Encode_append, List.append_assoc]
termination_by sizeA xs
decreasing_by all_goals (simp [sizeV, sizeA, sizeO]; try omega)

/-- Object-member loop of the compact pipeline over the byte-vector sink. -/
theorem serObj_compact_run (kvs : JObj) : ∀ (first : Bool) (s : List Nat),
    serObjGen (CompactV8Fmt vecWriter) kvs first ((), s) =
      .ok ((), s ++ utf8Encode (renderCO kvs first)) := by
  intro first s
  cases kvs with
  | nil => simp [serObjGen, renderCO, utf8Encode, pure, Except.pure]
  | cons k v tl =>
    simp only [serObjGen, CFv_begin_object_key, CFv_write_str, CFv_end_object_key,
      CFv_begin_object_value, List.append_nil, exBind_ok]
    rw [serGen_compact_run v]
    simp only [exBind_ok, CFv_end_object_value, List.append_nil]
    rw [serObj_compact_run tl]
    simp [renderCO, utf8Encode, utf8Encode_append, List.append_assoc]
termination_by sizeO kvs
decreasing_by all_goals (simp [sizeV, sizeA, sizeO]; try omega)
end

mutual
/-- Running the pretty pipeline over the byte-vector sink appends exactly
the UTF-8 encoding of the pure pretty rendering and ends in its state. -/
theorem serGen_pretty_run (v : JValue) : ∀ (g : PrettyV8Formatter) (s : List Nat),
    serGen (PrettyV8Fmt vecWriter) v (g, s) =
      .ok ((renderPV g v).2, s ++ utf8Encode (renderPV g v).1) := by
  intro g s
  cases v with
  | null => simp [serGen, PFv_write_null, renderPV]
  | bool b => simp [serGen, PFv_write_bool, renderPV]
  | int n => simp [serGen, PFv_write_i64, renderPV]
  | float u =>
    by_cases hf : u.expF = 2047
    · simp [serGen, hf, PFv_write_null, renderPV]
    · simp [serGen, hf, PFv_write_f64, renderPV]
  | str cs => simp [serGen, PFv_write_str, renderPV]
  | arr xs =>
    simp only [serGen, PFv_begin_array, exBind_ok]
    rw [serArr_pretty_run xs]
    simp [exBind_ok, PFv_end_array, renderPV, utf8Encode, utf8Encode_append, List.append_assoc]
  | obj kvs =>
    simp only [serGen, PFv_begin_object, exBind_ok]
    rw [serObj_pretty_run kvs]
    simp [exBind_ok, PFv_end_object, renderPV, utf8Encode, utf8Encode_append, List.append_assoc]
termination_by sizeV v
decreasing_by all_goals (simp [sizeV, sizeA, sizeO]; try omega)

/-- Array-element loop of the pretty pipeline over the byte-vector sink. -/
theorem serArr_pretty_run (xs : JArr) : ∀ (first : Bool) (g : PrettyV8Formatter)
    (s : List Nat),
    serArrGen (PrettyV8Fmt vecWriter) xs first (g, s) =
      .ok ((renderPA g xs first).2, s ++ utf8Encode (renderPA g xs first).1) := by
  intro first g s
  cases xs with
  | nil => simp [serArrGen, renderPA, utf8Encode, pure, Except.pure]
  | cons v tl =>
    simp only [serArrGen, PFv_begin_array_value, exBind_ok]
    rw [serGen_pretty_run v]
    simp only [exBind_ok, PFv_end_array_value]
    rw [serArr_pretty_run tl]
    simp [renderPA, utf8Encode, utf8Encode_append, List.append_assoc]
termination_by sizeA xs
decreasing_by all_goals (simp [sizeV, sizeA, sizeO]; try omega)

/-- Object-member loop of the pretty pipeline over the byte-vector sink. -/
theorem serObj_pretty_run (kvs : JObj) : ∀ (first : Bool) (g : PrettyV8Formatter)
    (s : List Nat),
    serObjGen (PrettyV8Fmt vecWriter) kvs first (g, s) =
      .ok ((renderPO g kvs first).2, s ++ utf8Encode (renderPO g kvs first).1) := by
  intro first g s
  cases kvs with
  | nil => simp [serObjGen, renderPO, utf8Encode, pure, Except.pure]
  | cons k v tl =>
    simp only [serObjGen, PFv_begin_object_key, PFv_write_str, PFv_end_object_key,
      PFv_begin_object_value, exBind_ok]
    rw [serGen_pretty_run v]
    simp only [exBind_ok, PFv_end_object_value]
    rw [serObj_pretty_run tl]
    simp [renderPO, utf8Encode, utf8Encode_append, List.append_assoc]
termination_by sizeO kvs
decreasing_by all_goals (simp [sizeV, sizeA, sizeO]; try omega)
end

/-- C7: `to_string` (resp. `to_string_pretty`) is exactly `to_vec` (resp.
`to_vec_pretty`) followed by the zero-validation byte-to-string
reinterpretation, succeeding exactly when it does; and the produced bytes
are always the well-formed UTF-8 encoding of a character sequence, which
the unchecked reinterpretation recovers exactly — so the unvalidated cast
is safe. -/
theorem C7_to_string_is_unvalidated_to_vec (v : JValue) :
    (to_string v = (to_vec v).map utf8DecodeUnchecked ∧
      to_string_pretty v = (to_vec_pretty v).map utf8DecodeUnchecked) ∧
    (∃ cs : List Char, to_vec v = .ok (utf8Encode cs) ∧ to_string v = .ok cs) ∧
    (∃ cs : List Char, to_vec_pretty v = .ok (utf8Encode cs) ∧
      to_string_pretty v = .ok cs) := by
  have hc : to_vec v = .ok (utf8Encode (renderCV v)) := by
    unfold to_vec to_writer
    rw [serGen_compact_run v]
    simp [Except.map]
  have hp : to_vec_pretty v = .ok (utf8Encode (renderPV PrettyV8Formatter.new v).1) := by
    unfold to_vec_pretty to_writer_pretty
    rw [serGen_pretty_run v]
    simp [Except.map]
  refine ⟨⟨rfl, rfl⟩, ⟨renderCV v, hc, ?_⟩,
    ⟨(renderPV PrettyV8Formatter.new v).1, hp, ?_⟩⟩
  · unfold to_string
    rw [hc]
    simp [Except.map, utf8_decode_encode]
  · unfold to_string_pretty
    rw [hp]
    simp [Except.map, utf8_decode_encode]

/-- C7 witness: the compact bytes/string relationship at the spec's example
value. -/
theorem C7_witness :
    ∃ cs : List Char, to_vec sampleValue = .ok (utf8Encode cs) ∧
      to_string sampleValue = .ok cs :=
  (C7_to_string_is_unvalidated_to_vec sampleValue).2.1

/-- A mapped `Except` that errored: the error came from the underlying
computation, unchanged. -/
theorem except_map_error {ε α β : Type} {x : Except ε α} {f : α → β} {e : ε}
    (h : x.map f = Except.error e) : x = Except.error e := by
  cases x with
  | error e2 => simpa [Except.map] using h
  | ok a => simp [Except.map] at h

/-- A bound `Except` that errored: either the first computation errored with
that very error, or it succeeded and the continuation errored. -/
theorem except_bind_error {ε α β : Type} {x : Except ε α} {f : α → Except ε β} {e : ε}
    (h : x >>= f = Except.error e) :
    x = Except.error e ∨ ∃ a, x = Except.ok a ∧ f a = Except.error e := by
  cases x with
  | error e2 =>
    left
    simp only [bind, Except.bind, Except.error.injEq] at h
    rw [h]
  | ok a =>
    right
    simp only [bind, Except.bind] at h
    exact ⟨a, rfl, h⟩

mutual
/-- Any error of the compact pipeline is an error some single sink write
returned, propagated unchanged. -/
theorem serGen_compact_err {ε σ : Type} (w : WriterM ε σ) (v : JValue) :
    ∀ (a : Unit × σ) (e : ε), serGen (CompactV8Fmt w) v a = .error e →
      ∃ s2 bs, w.write s2 bs = .error e := by
  intro a e h
  cases v with
  | null =>
    simp only [serGen, CompactV8Fmt] at h
    exact ⟨_, _, except_map_error h⟩
  | bool b =>
    simp only [serGen, CompactV8Fmt] at h
    exact ⟨_, _, except_map_error h⟩
  | int n =>
    simp only [serGen, CompactV8Fmt, CompactFormatter.write_i64] at h
    exact ⟨_, _, except_map_error h⟩
  | float u =>
    simp only [serGen] at h
    by_cases hf : u.expF = 2047
    · rw [if_pos hf] at h
      simp only [CompactV8Fmt] at h
      exact ⟨_, _, except_map_error h⟩
    · rw [if_neg hf] at h
      simp only [CompactV8Fmt] at h
      rw [compactV8_write_f64_chunk] at h
      exact ⟨_, _, except_map_error h⟩
  | str cs =>
    simp only [serGen, CompactV8Fmt] at h
    exact ⟨_, _, except_map_error h⟩
  | arr xs =>
    simp only [serGen] at h
    rcases except_bind_error h with h1 | ⟨a1, ha1, h2⟩
    · simp only [CompactV8Fmt] at h1
      exact ⟨_, _, except_map_error h1⟩
    · rcases except_bind_error h2 with h3 | ⟨a2, ha2, h4⟩
      · exact serArr_compact_err w xs true a1 e h3
      · simp only [CompactV8Fmt] at h4
        exact ⟨_, _, except_map_error h4⟩
  | obj kvs =>
    simp only [serGen] at h
    rcases except_bind_error h with h1 | ⟨a1, ha1, h2⟩
    · simp only [CompactV8Fmt] at h1
      exact ⟨_, _, except_map_error h1⟩
    · rcases except_bind_error h2 with h3 | ⟨a2, ha2, h4⟩
      · exact serObj_compact_err w kvs true a1 e h3
      · simp only [CompactV8Fmt] at h4
        exact ⟨_, _, except_map_error h4⟩
termination_by sizeV v
decreasing_by all_goals (subst_vars; simp [sizeV, sizeA, sizeO]; try omega)

/-- Error origin for the compact array-element loop. -/
theorem serArr_compact_err {ε σ : Type} (w : WriterM ε σ) (xs : JArr) :
    ∀ (first : Bool) (a : Unit × σ) (e : ε),
      serArrGen (CompactV8Fmt w) xs first a = .error e →
        ∃ s2 bs, w.write s2 bs = .error e := by
  intro first a e h
  cases xs with
  | nil => simp [serArrGen, pure, Except.pure] at h
  | cons v tl =>
    simp only [serArrGen] at h
    rcases except_bind_error h with h1 | ⟨a1, ha1, h2⟩
    · simp only [CompactV8Fmt] at h1
      exact ⟨_, _, except_map_error h1⟩
    · rcases except_bind_error h2 with h3 | ⟨a2, ha2, h4⟩
      · exact serGen_compact_err w v a1 e h3
      · rcases except_bind_error h4 with h5 | ⟨a3, ha3, h6⟩
        · simp only [CompactV8Fmt] at h5
          exact ⟨_, _, except_map_error h5⟩
        · exact serArr_compact_err w tl false a3 e h6
termination_by sizeA xs
decreasing_by all_goals (subst_vars; simp [sizeV, sizeA, sizeO]; try omega)

/-- Error origin for the compact object-member loop. -/
theorem serObj_compact_err {ε σ : Type} (w : WriterM ε σ) (kvs : JObj) :
    ∀ (first : Bool) (a : Unit × σ) (e : ε),
      serObjGen (CompactV8Fmt w) kvs first a = .error e →
        ∃ s2 bs, w.write s2 bs = .error e := by
  intro first a e h
  cases kvs with
  | nil => simp [serObjGen, pure, Except.pure] at h
  | cons k v tl =>
    simp only [serObjGen] at h
    rcases except_bind_error h with h1 | ⟨a1, ha1, h2⟩
    · simp only [CompactV8Fmt] at h1
      exact ⟨_, _, except_map_error h1⟩
    · rcases except_bind_error h2 with h3 | ⟨a2, ha2, h4⟩
      · simp only [CompactV8Fmt] at h3
        exact ⟨_, _, except_map_error h3⟩
      · rcases except_bind_error h4 with h5 | ⟨a3, ha3, h6⟩
        · simp only [CompactV8Fmt] at h5
          exact ⟨_, _, except_map_error h5⟩
        · rcases except_bind_error h6 with h7 | ⟨a4, ha4, h8⟩
          · simp only [CompactV8Fmt] at h7
            exact ⟨_, _, except_map_error h7⟩
          · rcases except_bind_error h8 with h9 | ⟨a5, ha5, h10⟩
            · exact serGen_compact_err w v a4 e h9
            · rcases except_bind_error h10 with h11 | ⟨a6, ha6, h12⟩
              · simp only [CompactV8Fmt] at h11
                exact ⟨_, _, except_map_error h11⟩
              · exact serObj_compact_err w tl false a6 e h12
termination_by sizeO kvs
decreasing_by all_goals (subst_vars; simp [sizeV, sizeA, sizeO]; try omega)
end

mutual
/-- Any error of the pretty pipeline is an error some single sink write
returned, propagated unchanged. -/
theorem serGen_pretty_err {ε σ : Type} (w : WriterM ε σ) (v : JValue) :
    ∀ (a : PrettyV8Formatter × σ) (e : ε), serGen (PrettyV8Fmt w) v a = .error e →
      ∃ s2 bs, w.write s2 bs = .error e := by
  intro a e h
  cases v with
  | null =>
    simp only [serGen, PrettyV8Fmt] at h
    exact ⟨_, _, except_map_error h⟩
  | bool b =>
    simp only [serGen, PrettyV8Fmt] at h
    exact ⟨_, _, except_map_error h⟩
  | int n =>
    simp only [serGen, PrettyV8Fmt, PrettyFormatter.write_i64] at h
    exact ⟨_, _, except_map_error h⟩
  | float u =>
    simp only [serGen] at h
    by_cases hf : u.expF = 2047
    · rw [if_pos hf] at h
      simp only [PrettyV8Fmt] at h
      exact ⟨_, _, except_map_error h⟩
    · rw [if_neg hf] at h
      simp only [PrettyV8Fmt] at h
      rw [prettyV8_write_f64_chunk] at h
      exact ⟨_, _, except_map_error h⟩
  | str cs =>
    simp only [serGen, PrettyV8Fmt] at h
    exact ⟨_, _, except_map_error h⟩
  | arr xs =>
    simp only [serGen] at h
    rcases except_bind_error h with h1 | ⟨a1, ha1, h2⟩
    · simp only [PrettyV8Fmt] at h1
      exact ⟨_, _, except_map_error h1⟩
    · rcases except_bind_error h2 with h3 | ⟨a2, ha2, h4⟩
      · exact serArr_pretty_err w xs true a1 e h3
      · simp only [PrettyV8Fmt] at h4
        exact ⟨_, _, except_map_error h4⟩
  | obj kvs =>
    simp only [serGen] at h
    rcases except_bind_error h with h1 | ⟨a1, ha1, h2⟩
    · simp only [PrettyV8Fmt] at h1
      exact ⟨_, _, except_map_error h1⟩
    · rcases except_bind_error h2 with h3 | ⟨a2, ha2, h4⟩
      · exact serObj_pretty_err w kvs true a1 e h3
      · simp only [PrettyV8Fmt] at h4
        exact ⟨_, _, except_map_error h4⟩
termination_by sizeV v
decreasing_by all_goals (subst_vars; simp [sizeV, sizeA, sizeO]; try omega)

/-- Error origin for the pretty array-element loop. -/
theorem serArr_pretty_err {ε σ : Type} (w : WriterM ε σ) (xs : JArr) :
    ∀ (first : Bool) (a : PrettyV8Formatter × σ) (e : ε),
      serArrGen (PrettyV8Fmt w) xs first a = .error e →
        ∃ s2 bs, w.write s2 bs = .error e := by
  intro first a e h
  cases xs with
  | nil => simp [serArrGen, pure, Except.pure] at h
  | cons v tl =>
    simp only [serArrGen] at h
    rcases except_bind_error h with h1 | ⟨a1, ha1, h2⟩
    · simp only [PrettyV8Fmt] at h1
      exact ⟨_, _, except_map_error h1⟩
    · rcases except_bind_error h2 with h3 | ⟨a2, ha2, h4⟩
      · exact serGen_pretty_err w v a1 e h3
      · rcases except_bind_error h4 with h5 | ⟨a3, ha3, h6⟩
        · simp only [PrettyV8Fmt] at h5
          exact ⟨_, _, except_map_error h5⟩
        · exact serArr_pretty_err w tl false a3 e h6
termination_by sizeA xs
decreasing_by all_goals (subst_vars; simp [sizeV, sizeA, sizeO]; try omega)

/-- Error origin for the pretty object-member loop. -/
theorem serObj_pretty_err {ε σ : Type} (w : WriterM ε σ) (kvs : JObj) :
    ∀ (first : Bool) (a : PrettyV8Formatter × σ) (e : ε),
      serObjGen (PrettyV8Fmt w) kvs first a = .error e →
        ∃ s2 bs, w.write s2 bs = .error e := by
  intro first a e h
  cases kvs with
  | nil => simp [serObjGen, pure, Except.pure] at h
  | cons k v tl =>
    simp only [serObjGen] at h
    rcases except_bind_error h with h1 | ⟨a1, ha1, h2⟩
    · simp only [PrettyV8Fmt] at h1
      exact ⟨_, _, except_map_error h1⟩
    · rcases except_bind_error h2 with h3 | ⟨a2, ha2, h4⟩
      · simp only [PrettyV8Fmt] at h3
        exact ⟨_, _, except_map_error h3⟩
      · rcases except_bind_error h4 with h5 | ⟨a3, ha3, h6⟩
        · simp only [PrettyV8Fmt] at h5
          exact ⟨_, _, except_map_error h5⟩
        · rcases except_bind_error h6 with h7 | ⟨a4, ha4, h8⟩
          · simp only [PrettyV8Fmt] at h7
            exact ⟨_, _, except_map_error h7⟩
          · rcases except_bind_error h8 with h9 | ⟨a5, ha5, h10⟩
            · exact serGen_pretty_err w v a4 e h9
            · rcases except_bind_error h10 with h11 | ⟨a6, ha6, h12⟩
              · simp only [PrettyV8Fmt] at h11
                exact ⟨_, _, except_map_error h11⟩
              · exact serObj_pretty_err w tl false a6 e h12
termination_by sizeO kvs
decreasing_by all_goals (subst_vars; simp [sizeV, sizeA, sizeO]; try omega)
end

/-- A sink whose every write fails, used to exercise error propagation. -/
def failWriter : WriterM Nat Unit := ⟨fun _ _ => .error 7⟩

/-- C9: the decision rule introduces no new failure modes.  Each `write_f64`
/ `write_f32` is exactly one delegated sink write (so it errors exactly when
that write does, with the error unchanged); every error of `to_writer` /
`to_writer_pretty` is an error some sink write returned, unchanged; and over
the infallible byte-vector sink all of `to_vec`, `to_vec_pretty`,
`to_string`, `to_string_pretty` return a typed success. -/
theorem C9_no_new_failure_modes :
    (∀ (ε σ : Type) (w : WriterM ε σ) (s : σ) (v : F64),
        CompactV8Formatter.write_f64 w s v = w.write s (utf8Encode (v8F64Chunk v)) ∧
        PrettyV8Formatter.write_f64 w s v = w.write s (utf8Encode (v8F64Chunk v))) ∧
    (∀ (ε σ : Type) (w : WriterM ε σ) (s : σ) (u : F32),
        CompactV8Formatter.write_f32 w s u = w.write s (utf8Encode (v8F32Chunk u)) ∧
        PrettyV8Formatter.write_f32 w s u = w.write s (utf8Encode (v8F32Chunk u))) ∧
    (∀ (ε σ : Type) (w : WriterM ε σ) (s : σ) (v : JValue) (e : ε),
        (to_writer w s v = .error e → ∃ s2 bs, w.write s2 bs = .error e) ∧
        (to_writer_pretty w s v = .error e → ∃ s2 bs, w.write s2 bs = .error e)) ∧
    (∀ v : JValue, (∃ bs, to_vec v = .ok bs) ∧ (∃ bs, to_vec_pretty v = .ok bs) ∧
        (∃ cs, to_string v = .ok cs) ∧ (∃ cs, to_string_pretty v = .ok cs)) := by
  refine ⟨?_, ?_, ?_, ?_⟩
  · intro ε σ w s v
    exact ⟨compactV8_write_f64_chunk w s v, prettyV8_write_f64_chunk w s v⟩
  · intro ε σ w s u
    exact ⟨compactV8_write_f32_chunk w s u, prettyV8_write_f32_chunk w s u⟩
  · intro ε σ w s v e
    constructor
    · intro h
      unfold to_writer at h
      exact serGen_compact_err w v ((), s) e (except_map_error h)
    · intro h
      unfold to_writer_pretty at h
      exact serGen_pretty_err w v (PrettyV8Formatter.new, s) e (except_map_error h)
  · intro v
    refine ⟨?_, ?_, ?_, ?_⟩
    · cases hv : to_vec v with
      | error e => exact e.elim
      | ok bs => exact ⟨bs, rfl⟩
    · cases hv : to_vec_pretty v with
      | error e => exact e.elim
      | ok bs => exact ⟨bs, rfl⟩
    · cases hv : to_string v with
      | error e => exact e.elim
      | ok cs => exact ⟨cs, rfl⟩
    · cases hv : to_string_pretty v with
      | error e => exact e.elim
      | ok cs => exact ⟨cs, rfl⟩

/-- C9 witness: a sink whose writes fail with error 7 makes `to_writer`
fail, and the failure is traced back to a sink write returning that very
error. -/
theorem C9_witness : ∃ s2 bs, failWriter.write s2 bs = Except.error 7 :=
  ((C9_no_new_failure_modes.2.2.1 Nat Unit failWriter () JValue.null 7).1) rfl

end SerdeV8